import Mathlib

/-!
Shallow embedding of the register allocator's linear-scan back end and
analysis front end (src/regalloc/lib/src/linear_scan/mod.rs and
src/regalloc/lib/src/analysis_main.rs), together with proofs about the
embedded definitions.  Identifier types (`data_structures.rs`), the sparse
set type (`sparse_set.rs`) and the sub-phases of analysis that live in
files absent from the source tree are modelled from the specification and
are marked as such in their doc comments.
-/

namespace RA

/-- A real (hardware) register.  Modelled from the spec: `RealReg` lives in
`data_structures.rs`, absent from the sources; per the spec both register
variants "expose a dense index and a register class". -/

structure RealReg where
  index : Nat
  rc : Nat
  deriving DecidableEq, Repr

/-- A register: tagged variant of real or virtual.  Modelled from the spec:
"**Register** is a tagged variant of `RealReg` or `VirtualReg`"
(`data_structures.rs` is absent from the sources). -/

inductive Reg where
  | real (index : Nat) (rc : Nat)
  | virt (index : Nat) (rc : Nat)
  deriving DecidableEq, Repr

/-- Modelled from the spec: the `Use` point precedes the `Def` point of the
same instruction (`Point` in `data_structures.rs`, absent from the sources). -/

inductive Point where
  | Use
  | Def
  deriving DecidableEq, Repr

def Point.toNat : Point → Nat
  | .Use => 0
  | .Def => 1

/-- Modelled from the spec: "Program Point `InstPoint = (InstIx, {Use, Def})`
... Total order by lexicographic `(InstIx, side)`". `InstIx` is a dense index,
embedded as `Nat`. -/

structure InstPoint where
  iix : Nat
  pt : Point
  deriving DecidableEq, Repr

/-- Lexicographic order on program points, per the spec's total order. -/

def InstPoint.le (a b : InstPoint) : Bool :=
  a.iix < b.iix || (a.iix == b.iix && a.pt.toNat ≤ b.pt.toNat)

def InstPoint.new_use (iix : Nat) : InstPoint := ⟨iix, .Use⟩

def InstPoint.new_def (iix : Nat) : InstPoint := ⟨iix, .Def⟩

/-- Mentions of a register at an instruction: a set encoded as three flags,
one for each of use/mod/def (`Mention` in linear_scan/mod.rs, a `u8`). -/

structure Mention where
  bits : Nat
  deriving DecidableEq, Repr

def Mention.new : Mention := ⟨0⟩

def Mention.add_use (m : Mention) : Mention := ⟨m.bits ||| 1⟩

def Mention.add_mod (m : Mention) : Mention := ⟨m.bits ||| 2⟩

def Mention.add_def (m : Mention) : Mention := ⟨m.bits ||| 4⟩

def Mention.is_use (m : Mention) : Bool := m.bits &&& 1 != 0

def Mention.is_mod (m : Mention) : Bool := m.bits &&& 2 != 0

def Mention.is_def (m : Mention) : Bool := m.bits &&& 4 != 0

def Mention.is_use_or_mod (m : Mention) : Bool := m.bits &&& 3 != 0

def Mention.is_mod_or_def (m : Mention) : Bool := m.bits &&& 6 != 0

/-- `SpillSlot` is a dense index (`data_structures.rs`, absent); embedded as
`Nat`. -/

abbrev SpillSlot := Nat

/-- Location of a live interval (`Location` in linear_scan/mod.rs). -/

inductive Location where
  | none
  | reg (r : RealReg)
  | stack (slot : SpillSlot)
  deriving DecidableEq, Repr

/-- `Location::reg` accessor from linear_scan/mod.rs. -/

def Location.getReg : Location → Option RealReg
  | .reg r => some r
  | _ => Option.none

/-- `Location::spill` accessor from linear_scan/mod.rs. -/

def Location.spill : Location → Option SpillSlot
  | .stack slot => some slot
  | _ => Option.none

/-- `Location::is_none` from linear_scan/mod.rs. -/

def Location.is_none : Location → Bool
  | .none => true
  | _ => false

/-- One entry of a `MentionMap`: `(InstIx, Mention)` (linear_scan/mod.rs). -/

abbrev MentionMap := List (Nat × Mention)

/-- A virtual live interval (`VirtualInterval` in linear_scan/mod.rs).  The
split-tree links (`parent`, `ancestor`, `child`) and `block_boundaries` are
carried only by passes absent from the sources and are not used by the
embedded functions, so they are omitted here.  `safepoints` pairs a safepoint
instruction index with that safepoint's position in the request's
`safepoint_insns` vector, as in the source type `Safepoints`. -/

structure VirtualInterval where
  vreg : Nat
  ref_typed : Bool
  location : Location
  mentions : MentionMap
  safepoints : List (Nat × Nat)
  start : InstPoint
  last : InstPoint
  deriving DecidableEq, Repr

/-- `VirtualInterval::covers` from linear_scan/mod.rs:
`self.start <= pos && pos <= self.end`. -/

def VirtualInterval.covers (i : VirtualInterval) (pos : InstPoint) : Bool :=
  i.start.le pos && pos.le i.last

/-- The caller's stack-map request.  Modelled from the spec: carries the
caller-supplied safepoint instruction indices (`StackmapRequestInfo` lives in
lib.rs, absent from the sources). -/

structure StackmapRequestInfo where
  reftype_class : Nat
  reftyped_vregs : List Nat
  safepoint_insns : List Nat
  deriving DecidableEq, Repr

/-- `compute_stackmaps` from linear_scan/mod.rs: for each ref-typed interval
whose location is a spill slot, push that slot onto the stack map of every
safepoint recorded in the interval's `safepoints` list. -/

def compute_stackmaps (intervals : List VirtualInterval)
    (stackmap_request : Option StackmapRequestInfo) : List (List SpillSlot) :=
  match stackmap_request with
  | some request =>
    intervals.foldl
      (fun stackmaps int =>
        if !int.ref_typed then stackmaps
        else
          match int.location.spill with
          | some slot =>
            int.safepoints.foldl
              (fun sm sp => sm.set sp.2 ((sm.getD sp.2 []) ++ [slot]))
              stackmaps
          | Option.none => stackmaps)
      (List.replicate request.safepoint_insns.length [])
  | Option.none => []

/-- The stack maps exactly as the specification words them (spec §4.9): for
each caller-supplied safepoint, "collect every reference-typed virtual
interval whose assigned location is a stack slot and whose live range covers
the safepoint's `Use` point.  Emit the sorted set of `SpillSlot`s".  This
definition exists only to be compared against `compute_stackmaps`. -/

def claimed_stackmaps (intervals : List VirtualInterval)
    (request : StackmapRequestInfo) : List (List SpillSlot) :=
  request.safepoint_insns.map (fun iix =>
    ((intervals.filterMap (fun int =>
        if int.ref_typed && int.covers (InstPoint.new_use iix) then int.location.spill
        else Option.none)).dedup).insertionSort (· ≤ ·))

/-- Modelled from the spec: the `safepoints` list that linear_scan/analysis.rs
and assign_registers.rs (absent from the sources) attach to an interval -- the
requested safepoints whose `Use` point the interval covers, paired with their
position in the request's `safepoint_insns` vector. -/

def safepointsOf (int : VirtualInterval) : List Nat → Nat → List (Nat × Nat)
  | [], _ => []
  | iix :: rest, ix =>
    if int.covers (InstPoint.new_use iix) then
      (iix, ix) :: safepointsOf int rest (ix + 1)
    else
      safepointsOf int rest (ix + 1)

/-- An interval's recorded safepoints agree with the request: exactly the
requested safepoints whose `Use` point the interval covers. -/

def safepointsWF (request : StackmapRequestInfo) (int : VirtualInterval) : Prop :=
  int.safepoints = safepointsOf int request.safepoint_insns 0

def stackmaps_step (stackmaps : List (List Nat)) (int : VirtualInterval) :
    List (List Nat) :=
  if !int.ref_typed then stackmaps
  else
    match int.location.spill with
    | some slot =>
      int.safepoints.foldl (fun sm sp => sm.set sp.2 ((sm.getD sp.2 []) ++ [slot])) stackmaps
    | Option.none => stackmaps

def c1_int0 : VirtualInterval :=
  { vreg := 0, ref_typed := true, location := .stack 5, mentions := [],
    safepoints := [(7, 0)], start := ⟨0, .Use⟩, last := ⟨10, .Def⟩ }

/-- Second interval of the concrete C1 scenario: like `c1_int0` but spilled to
slot 2. -/

def c1_int1 : VirtualInterval :=
  { vreg := 1, ref_typed := true, location := .stack 2, mentions := [],
    safepoints := [(7, 0)], start := ⟨0, .Use⟩, last := ⟨10, .Def⟩ }

/-- The stack-map request of the concrete C1 scenario: one safepoint, at
instruction 7. -/

def c1_request : StackmapRequestInfo :=
  { reftype_class := 0, reftyped_vregs := [0, 1], safepoint_insns := [7] }

/-- C1, counterexample: `compute_stackmaps` pushes slots in interval order and
never sorts, so the emitted stack map `[5, 2]` differs from the claimed
"sorted set of SpillSlots" `[2, 5]`, even though both hold the same slots. -/

structure FuncData where
  num_blocks : Nat
  block_insns : Nat → List Nat
  entry_block : Nat
  is_ret : Nat → Bool
  func_liveins : List RealReg
  func_liveouts : List RealReg
  is_included_in_clobbers : Nat → Bool
  num_insns : Nat

/-- `DepthBasedFrequencies::new` from analysis_main.rs: each block's estimated
execution frequency starts at 1 and is multiplied by 10 once per level of
loop depth, the depth being capped at 3.  The loop-depth map comes from
`CFGInfo` (analysis_control_flow.rs, absent from the sources), so it is taken
here as a function argument; the source's `values.push` loop over the block
range is rendered as a map over that range. -/

def DepthBasedFrequencies.new (num_blocks : Nat) (depth_map : Nat → Nat) :
    List Nat :=
  (List.range num_blocks).map (fun bix =>
    (List.range (Nat.min (depth_map bix) 3)).foldl
      (fun estimated_frequency _ => estimated_frequency * 10) 1)

def sparseUnion (a b : List Reg) : List Reg :=
  a ++ b.filter (fun r => decide (r ∉ a))

def add_liveouts (f : FuncData) (liveout_sets : List (List Reg))
    (func_liveouts : List Reg) : List (List Reg) :=
  (List.range f.num_blocks).foldl
    (fun sets block =>
      let last_iix := (f.block_insns block).getLastD 0
      if f.is_ret last_iix then
        sets.set block (sparseUnion (sets.getD block []) func_liveouts)
      else sets)
    liveout_sets

def c7_func : FuncData :=
  { num_blocks := 2, block_insns := fun b => if b = 0 then [0, 1] else [2, 3],
    entry_block := 0, is_ret := fun i => i = 3,
    func_liveins := [], func_liveouts := [⟨0, 0⟩],
    is_included_in_clobbers := fun _ => true, num_insns := 4 }

/-- C7, witness: on `c7_func`, block 1 (a return block) gains the function
live-outs while block 0 is unchanged. -/

inductive AnalysisError where
  | CriticalEdge (fromBlock : Nat) (toBlock : Nat)
  | EntryLiveinValues (regs : List Reg)
  | IllegalRealReg (r : RealReg)
  | UnreachableBlocks
  | ImplementationLimitsExceeded
  | LsraCriticalEdge (block : Nat) (inst : Nat)
  deriving DecidableEq, Repr

/-- Allocator failures.  Modelled from the spec's error list (`RegAllocError`
lives in lib.rs, absent from the sources); register classes are dense
indices. -/

inductive RegAllocError where
  | OutOfRegisters (rc : Nat)
  | MissingSuggestedScratchReg (rc : Nat)
  | Analysis (e : AnalysisError)
  | RegChecker
  | Other (msg : String)
  deriving DecidableEq, Repr

/-- Discriminator for the `OutOfRegisters` error variant. -/

def isOutOfRegisters {α : Type} : Except RegAllocError α → Bool
  | .error (.OutOfRegisters _) => true
  | _ => false

/-- Information about one register class of the universe.  Modelled from the
spec (`RealRegUniverse` lives in lib.rs, absent from the sources): the
first/last indices of the class's allocatable registers and the optional
suggested scratch register, as used by `compute_scratches`. -/

structure RegClassInfo where
  first : Nat
  last : Nat
  suggested_scratch : Option Nat
  deriving DecidableEq, Repr

/-- The real-register universe.  Modelled from the spec: the register vector,
the count of allocatable registers, and the per-class info
(`RealRegUniverse` lives in lib.rs, absent from the sources). -/

structure RealRegUniverse where
  regs : List RealReg
  allocable : Nat
  allocable_by_class : List (Option RegClassInfo)
  deriving DecidableEq, Repr

/-- The loop body of `compute_scratches` (linear_scan/mod.rs), recursing over
`allocable_by_class` while carrying the class index `i`: a present class whose
`first` equals its `last` (a single register) aborts with
`Other("at least 2 registers required for linear scan")`; a present class
without a suggested scratch aborts with `MissingSuggestedScratchReg`;
otherwise the scratch is read out of the register vector. -/

def compute_scratches_loop (regs : List RealReg) :
    List (Option RegClassInfo) → Nat → Except RegAllocError (List (Option RealReg))
  | [], _ => .ok []
  | Option.none :: rest, i =>
    (compute_scratches_loop regs rest (i + 1)).map (fun s => Option.none :: s)
  | some info :: rest, i =>
    if info.first == info.last then
      .error (.Other "at least 2 registers required for linear scan")
    else
      match info.suggested_scratch with
      | some suggested_reg =>
        (compute_scratches_loop regs rest (i + 1)).map
          (fun s => some (regs.getD suggested_reg ⟨0, 0⟩) :: s)
      | Option.none => .error (.MissingSuggestedScratchReg i)

/-- `compute_scratches` from linear_scan/mod.rs. -/

def compute_scratches (reg_universe : RealRegUniverse) :
    Except RegAllocError (List (Option RealReg)) :=
  compute_scratches_loop reg_universe.regs reg_universe.allocable_by_class 0

/-- The concrete C5 universe: a single class holding exactly one register
(with a suggested scratch, so only the register count is at fault). -/

def c5_universe : RealRegUniverse :=
  { regs := [⟨0, 0⟩], allocable := 1,
    allocable_by_class := [some ⟨0, 0, some 0⟩] }

/-- One element of the `mention_map` built by `set_registers`
(linear_scan/mod.rs): `(InstIx, Mention, VirtualReg, RealReg)`. -/

structure MentionEntry where
  iix : Nat
  mention : Mention
  vreg : Nat
  rreg : RealReg
  deriving DecidableEq, Repr

/-- The `mention_map` of `set_registers`: one entry per recorded mention of
every virtual interval whose location is a real register. -/

def build_mention_map (virtual_intervals : List VirtualInterval) :
    List MentionEntry :=
  virtual_intervals.foldl
    (fun acc int =>
      match int.location.getReg with
      | some rreg => acc ++ int.mentions.map (fun m => ⟨m.1, m.2, int.vreg, rreg⟩)
      | Option.none => acc)
    []

/-- The sort of the mention map by instruction index
(`sort_unstable_by_key(|quad| quad.0)` in the source); rendered as an
insertion sort on the same key, which is deterministic and sorted by the same
order. -/

def sortByIix (l : List MentionEntry) : List MentionEntry :=
  l.insertionSort (fun a b => a.iix ≤ b.iix)

/-- Modelled from the spec: `MentionRegUsageMapper` (reg_maps.rs, absent from
the sources) -- the per-instruction map from a virtual register to the real
register substituted at its Use side and at its Def side; `map_regs` rewrites
"each virtual-register mention via the mapper, once per side" (spec §6). -/

structure Mapper where
  uses : Nat → Option RealReg
  defs : Nat → Option RealReg

def Mapper.empty : Mapper := ⟨fun _ => Option.none, fun _ => Option.none⟩

def Mapper.lookup_use (m : Mapper) (v : Nat) : Option RealReg := m.uses v

def Mapper.lookup_def (m : Mapper) (v : Nat) : Option RealReg := m.defs v

def Mapper.set_use (m : Mapper) (v : Nat) (r : RealReg) : Mapper :=
  { m with uses := fun w => if w = v then some r else m.uses w }

def Mapper.set_def (m : Mapper) (v : Nat) (r : RealReg) : Mapper :=
  { m with defs := fun w => if w = v then some r else m.defs w }

/-- Modelled from the spec: insertion into the clobbered-register set
(`Set<RealReg>` from data_structures.rs, absent from the sources).  Spec §5
demands iteration orders independent of hashing, so the set is embedded as a
duplicate-free list in insertion order. -/

def setInsert (s : List RealReg) (r : RealReg) : List RealReg :=
  if r ∈ s then s else s ++ [r]

/-- One iteration of the mention loop in `set_registers`
(linear_scan/mod.rs): a Use mention records the use-side register; a Mod
mention records both sides and, when the instruction is included in clobbers,
inserts the register into the clobbered set; a Def mention does the same for
the def side. -/

def mention_step (included : Nat → Bool) (st : Mapper × List RealReg)
    (e : MentionEntry) : Mapper × List RealReg :=
  let mapper := st.1
  let clobbered := st.2
  let mapper := if e.mention.is_use then mapper.set_use e.vreg e.rreg else mapper
  let included_in_clobbers := included e.iix
  let mapper :=
    if e.mention.is_mod then (mapper.set_use e.vreg e.rreg).set_def e.vreg e.rreg
    else mapper
  let clobbered :=
    if e.mention.is_mod && included_in_clobbers then setInsert clobbered e.rreg
    else clobbered
  let mapper := if e.mention.is_def then mapper.set_def e.vreg e.rreg else mapper
  let clobbered :=
    if e.mention.is_def && included_in_clobbers then setInsert clobbered e.rreg
    else clobbered
  (mapper, clobbered)

/-- The instruction loop of `set_registers`: for each instruction index in
order, consume the mention-map entries of that instruction (the source's
`while let` over `cur_quad_ix`), build the mapper handed to `map_regs`
starting from a cleared mapper, and thread the clobbered-register set
through.  Returns the final clobbered set and the mapper used at each
instruction. -/

def set_registers_loop (included : Nat → Bool) :
    List MentionEntry → List Nat → List RealReg →
      List RealReg × List (Nat × Mapper)
  | _, [], clobbered => (clobbered, [])
  | entries, iix :: rest, clobbered =>
    let here := entries.takeWhile (fun e => e.iix == iix)
    let later := entries.dropWhile (fun e => e.iix == iix)
    let st := here.foldl (mention_step included) (Mapper.empty, clobbered)
    let res := set_registers_loop included later rest st.2
    (res.1, (iix, st.1) :: res.2)

/-- `set_registers` from linear_scan/mod.rs (register substitution and
clobber collection; the checker branch is handled by its caller via an oracle
since checker.rs is absent from the sources): build the mention map, sort it
by instruction index, and walk the function's instruction range.  When no
interval is register-allocated the function exits early with an empty
clobbered set. -/

def set_registers (f : FuncData) (virtual_intervals : List VirtualInterval) :
    List RealReg × List (Nat × Mapper) :=
  let capacity := virtual_intervals.foldl (fun a int => a + int.mentions.length) 0
  if capacity == 0 then ([], [])
  else
    set_registers_loop f.is_included_in_clobbers
      (sortByIix (build_mention_map virtual_intervals))
      (List.range f.num_insns) []

/-- The allocator's result (`RegAllocResult` in lib.rs, absent from the
sources; fields per the spec's output description).  Fields produced by
`add_spills_reloads_and_moves` (inst_stream.rs, absent) are opaque tokens. -/

structure RegAllocResult where
  insns : Nat
  target_map : Nat
  orig_insn_map : Nat
  clobbered_registers : List RealReg
  num_spill_slots : Nat
  block_annotations : Option Nat
  stackmaps : List (List SpillSlot)
  new_safepoint_insns : List Nat
  deriving DecidableEq, Repr

/-- `apply_registers` from linear_scan/mod.rs: compute the stack maps, fill
the register assignments in (`set_registers`; the checker verdict is an
oracle since checker.rs is absent from the sources), build the final
instruction stream (`add_spills_reloads_and_moves`, inst_stream.rs absent,
its result an oracle), and restrict the clobbered set to allocatable
registers -- per the source comment "remove from the clobbered registers set,
all those not available to the allocator" (`Set::filter_map` lives in the
absent data_structures.rs and is modelled as the in-place restriction the
comment and spec describe). -/

def apply_registers (f : FuncData) (virtual_intervals : List VirtualInterval)
    (reg_universe : RealRegUniverse) (num_spill_slots : Nat)
    (use_checker : Bool) (checker_result : Except Unit Unit)
    (inst_stream : Except String (Nat × Nat × Nat × List Nat))
    (stackmap_request : Option StackmapRequestInfo) :
    Except RegAllocError RegAllocResult :=
  let stackmaps := compute_stackmaps virtual_intervals stackmap_request
  let sr := set_registers f virtual_intervals
  if use_checker && !checker_result.isOk then .error .RegChecker
  else
    match inst_stream with
    | .error e => .error (.Other e)
    | .ok (final_insns, target_map, new_to_old_insn_map, new_safepoint_insns) =>
      let clobbered_registers :=
        sr.1.filter (fun reg => decide (reg.index < reg_universe.allocable))
      .ok { insns := final_insns, target_map := target_map,
            orig_insn_map := new_to_old_insn_map,
            clobbered_registers := clobbered_registers,
            num_spill_slots := num_spill_slots,
            block_annotations := Option.none,
            stackmaps := stackmaps,
            new_safepoint_insns := new_safepoint_insns }

/-- The analysis bundle consumed by linear scan's `run`
(`AnalysisInfo` of linear_scan/analysis.rs, absent from the sources): the
unassigned intervals plus opaque tokens for the other destructured fields. -/

structure LsAnalysisInfo where
  intervals : List VirtualInterval
  liveins : Nat
  liveouts : Nat
  cfg : Nat
  deriving DecidableEq, Repr

/-- `run` from linear_scan/mod.rs, the allocator top level.  The sub-phases
living in files absent from the sources -- linear scan's own analysis,
`assign_registers::run`, `resolve_moves::run`, the instruction-stream
builder and the checker -- enter as oracle arguments (pure values/functions),
while the sequencing, `compute_scratches`, error propagation and
`apply_registers` follow the source. -/

def run (analysis_result : Except AnalysisError LsAnalysisInfo)
    (assign : List (Option RealReg) → List VirtualInterval →
      Except RegAllocError (List VirtualInterval × Nat))
    (resolve : List VirtualInterval → Nat → Nat × Nat)
    (checker_result : Except Unit Unit)
    (inst_stream : Except String (Nat × Nat × Nat × List Nat))
    (f : FuncData) (reg_universe : RealRegUniverse)
    (stackmap_request : Option StackmapRequestInfo) (use_checker : Bool) :
    Except RegAllocError RegAllocResult :=
  match analysis_result with
  | .error err => .error (.Analysis err)
  | .ok info =>
    match compute_scratches reg_universe with
    | .error e => .error e
    | .ok _scratches_by_rc =>
      match assign _scratches_by_rc info.intervals with
      | .error e => .error e
      | .ok assigned =>
        let virtuals := assigned.1
        let resolved := resolve virtuals assigned.2
        apply_registers f virtuals reg_universe resolved.2 use_checker
          checker_result inst_stream stackmap_request

/-- Algorithm selector (`AlgorithmWithDefaults` in lib.rs, absent from the
sources; modelled from the spec's two algorithms). -/

inductive Algorithm where
  | LinearScan
  | Backtracking
  deriving DecidableEq, Repr

/-- `rreg.to_reg()` mapped over a register vector, as `run_analysis` does for
the function's declared live-ins and live-outs. -/

def to_reg_vec (l : List RealReg) : List Reg :=
  l.map (fun rreg => Reg.real rreg.index rreg.rc)

/-- Modelled from the spec: sparse-set subset test (`SparseSet::is_subset_of`,
sparse_set.rs absent from the sources). -/

def is_subset_of (a b : List Reg) : Bool :=
  a.all (fun r => decide (r ∈ b))

/-- Modelled from the spec: `SparseSet::remove`, which removes from the first
set every member of the second -- the set difference `run_analysis` reports in
`EntryLiveinValues`. -/

def sparseRemove (a b : List Reg) : List Reg :=
  a.filter (fun r => decide (r ∉ b))

/-- The results of the sub-computations of `run_analysis` that live in files
absent from the sources (analysis_control_flow.rs, analysis_data_flow.rs,
analysis_reftypes.rs), taken as oracles; fields that `run_analysis` never
inspects itself are opaque tokens.  `range_frags` consumes the live-in and
(amended) live-out sets as the source call does; `merge_ranges` turns the
fragment tokens into range-environment tokens; `reftypes` is
`do_reftypes_analysis`'s in-place update of those environments. -/

structure AnalysisOracles where
  cfg_info : Except AnalysisError Unit
  depth_map : Nat → Nat
  inst_to_block : Nat
  sanitized : Except RealReg Unit
  livein_sets : List (List Reg)
  liveout_sets : List (List Reg)
  range_frags : List (List Reg) → List (List Reg) → Nat × Nat
  merge_ranges : Nat × Nat → Nat × Nat
  reg_to_ranges : Nat
  move_information : Nat
  reftypes : Nat × Nat → Nat × Nat

/-- `AnalysisInfo` from analysis_main.rs; fields whose types live in absent
files are opaque tokens. -/

structure AnalysisInfo where
  reg_vecs_and_bounds : Unit
  real_ranges : Nat
  virtual_ranges : Nat
  range_frags : Nat
  range_metrics : Nat
  estimated_frequencies : List Nat
  inst_to_block_map : Nat
  reg_to_ranges_maps : Option Nat
  move_info : Option Nat
  deriving DecidableEq, Repr

/-- The tail of `run_analysis` (analysis_main.rs) after the entry live-in
check: the return-block live-out amendment, fragment and range construction,
the conditional construction of `reg_to_ranges_maps`/`move_info` ("only
generated in situations where we need it"), and -- when the client wants stack
maps -- the reftype analysis whose two `unwrap`s are rendered as the `Option`
layer (`none` models the panic). -/

def run_analysis_rest (f : FuncData) (o : AnalysisOracles) (algorithm : Algorithm)
    (client_wants_stackmaps : Bool) (estimated_frequencies : List Nat) :
    Option (Except AnalysisError AnalysisInfo) :=
  let func_liveouts := to_reg_vec f.func_liveouts
  let liveout_sets_per_block := add_liveouts f o.liveout_sets func_liveouts
  let frags := o.range_frags o.livein_sets liveout_sets_per_block
  let envs := o.merge_ranges frags
  let maps :=
    if client_wants_stackmaps || algorithm == Algorithm.Backtracking then
      (some o.reg_to_ranges, some o.move_information)
    else (Option.none, Option.none)
  let step :=
    if client_wants_stackmaps then
      match maps.1 with
      | some _ =>
        match maps.2 with
        | some _ => some (o.reftypes envs)
        | Option.none => Option.none
      | Option.none => Option.none
    else some envs
  match step with
  | Option.none => Option.none
  | some envs =>
    some (.ok {
      reg_vecs_and_bounds := (),
      real_ranges := envs.1,
      virtual_ranges := envs.2,
      range_frags := frags.1,
      range_metrics := frags.2,
      estimated_frequencies := estimated_frequencies,
      inst_to_block_map := o.inst_to_block,
      reg_to_ranges_maps := maps.1,
      move_info := maps.2 })

/-- `run_analysis` from analysis_main.rs.  The sub-computations living in
absent files enter through `AnalysisOracles`; the sequencing -- the
stack-map/linear-scan `assert!`, control-flow analysis, frequency estimation,
sanitization with the `IllegalRealReg` mapping, the entry live-in check and
the tail in `run_analysis_rest` -- follows the source.  The outer `Option` is
`none` exactly when the source would panic. -/

def run_analysis (f : FuncData) (o : AnalysisOracles) (algorithm : Algorithm)
    (client_wants_stackmaps : Bool) :
    Option (Except AnalysisError AnalysisInfo) :=
  if client_wants_stackmaps && decide (algorithm = Algorithm.LinearScan) then
    Option.none
  else
    match o.cfg_info with
    | .error e => some (.error e)
    | .ok _ =>
      let estimated_frequencies := DepthBasedFrequencies.new f.num_blocks o.depth_map
      match o.sanitized with
      | .error reg => some (.error (.IllegalRealReg reg))
      | .ok _ =>
        let func_liveins := to_reg_vec f.func_liveins
        let entry_livein := o.livein_sets.getD f.entry_block []
        if !is_subset_of entry_livein func_liveins then
          some (.error (.EntryLiveinValues (sparseRemove entry_livein func_liveins)))
        else
          run_analysis_rest f o algorithm client_wants_stackmaps
            estimated_frequencies

/-- Modelled from the spec: the linear-scan critical-edge check performed by
linear_scan/analysis.rs (absent from the sources).  Per the doc comment on
`AnalysisError::LsraCriticalEdge` in analysis_main.rs: "if a block ends with a
control flow instruction that has at least one register mention (use, mod or
def), then the successor blocks must have a single predecessor"; an offending
block is reported as `LsraCriticalEdge { block, inst }` with `inst` the
block's terminator.  Critical edges whose terminator mentions no register are
tolerated by linear scan. -/

def lsra_check_step (f : FuncData) (succs preds : Nat → List Nat)
    (term_mentions_reg : Nat → Bool) (acc : Except AnalysisError Unit)
    (block : Nat) : Except AnalysisError Unit :=
  match acc with
  | .error e => .error e
  | .ok _ =>
    let inst := (f.block_insns block).getLastD 0
    if term_mentions_reg inst &&
        (succs block).any (fun s => decide (2 ≤ (preds s).length)) then
      .error (.LsraCriticalEdge block inst)
    else .ok ()

def lsra_check_edges (f : FuncData) (succs preds : Nat → List Nat)
    (term_mentions_reg : Nat → Bool) : Except AnalysisError Unit :=
  (List.range f.num_blocks).foldl (lsra_check_step f succs preds term_mentions_reg)
    (.ok ())

instance : IsTotal MentionEntry (fun a b => a.iix ≤ b.iix) :=
  ⟨fun a b => Nat.le_total a.iix b.iix⟩

instance : IsTrans MentionEntry (fun a b => a.iix ≤ b.iix) :=
  ⟨fun _ _ _ h1 h2 => Nat.le_trans h1 h2⟩

def c2_interval : VirtualInterval :=
  { vreg := 0, ref_typed := false, location := .reg ⟨3, 0⟩,
    mentions := [(1, ⟨2⟩)], safepoints := [],
    start := ⟨0, .Use⟩, last := ⟨1, .Def⟩ }

/-- The concrete C2 function: one block of two instructions. -/

def c2_func : FuncData :=
  { num_blocks := 1, block_insns := fun _ => [0, 1], entry_block := 0,
    is_ret := fun i => i = 1, func_liveins := [], func_liveouts := [],
    is_included_in_clobbers := fun _ => true, num_insns := 2 }

/-- C2, witness: on the concrete function, the Mod mention at instruction 1
yields identical use-side and def-side registers. -/

def c6_interval : VirtualInterval :=
  { vreg := 0, ref_typed := false, location := .reg ⟨1, 0⟩,
    mentions := [(0, ⟨4⟩)], safepoints := [],
    start := ⟨0, .Use⟩, last := ⟨0, .Def⟩ }

/-- The concrete C6 function: one block of one instruction, everything
included in clobbers. -/

def c6_func : FuncData :=
  { num_blocks := 1, block_insns := fun _ => [0], entry_block := 0,
    is_ret := fun _ => true, func_liveins := [], func_liveouts := [],
    is_included_in_clobbers := fun _ => true, num_insns := 1 }

/-- The concrete C6 universe: two allocatable registers. -/

def c6_universe : RealRegUniverse :=
  { regs := [⟨0, 0⟩, ⟨1, 0⟩], allocable := 2,
    allocable_by_class := [some ⟨0, 1, some 1⟩] }

/-- C6, witness: the clobber soundness applied to the concrete scenario. -/

def c3_func : FuncData :=
  { num_blocks := 0, block_insns := fun _ => [], entry_block := 0,
    is_ret := fun _ => false, func_liveins := [], func_liveouts := [],
    is_included_in_clobbers := fun _ => false, num_insns := 0 }

/-- C3: determinism of the allocator top level -- two invocations of `run` on
identical inputs (the oracle results standing for the sub-phases absent from
the sources being part of those inputs, themselves pure values) produce
identical `RegAllocResult`s. -/

def c4_oracles : AnalysisOracles :=
  { cfg_info := .ok (), depth_map := fun _ => 0, inst_to_block := 0,
    sanitized := .ok (), livein_sets := [[Reg.virt 5 0]], liveout_sets := [[]],
    range_frags := fun _ _ => (0, 0), merge_ranges := fun p => p,
    reg_to_ranges := 0, move_information := 0, reftypes := fun p => p }

/-- The concrete C4 function: one block, no declared live-ins. -/

def c4_func : FuncData :=
  { num_blocks := 1, block_insns := fun _ => [0], entry_block := 0,
    is_ret := fun _ => true, func_liveins := [], func_liveouts := [],
    is_included_in_clobbers := fun _ => true, num_insns := 1 }

/-- C4, witness: the characterization evaluated on the concrete scenario. -/

def c10_oracles : AnalysisOracles :=
  { cfg_info := .ok (), depth_map := fun _ => 0, inst_to_block := 0,
    sanitized := .ok (), livein_sets := [[]], liveout_sets := [[]],
    range_frags := fun _ _ => (0, 0), merge_ranges := fun p => p,
    reg_to_ranges := 0, move_information := 0, reftypes := fun p => p }

/-- The `AnalysisInfo` that `run_analysis` produces on the C10 witness
inputs. -/

def c10_info : AnalysisInfo :=
  { reg_vecs_and_bounds := (), real_ranges := 0, virtual_ranges := 0,
    range_frags := 0, range_metrics := 0, estimated_frequencies := [1],
    inst_to_block_map := 0, reg_to_ranges_maps := some 0, move_info := some 0 }

/-- C10, witness: with stack maps requested and the Backtracking algorithm,
both optional fields of the result are `Some`. -/

def c8_func : FuncData :=
  { num_blocks := 2, block_insns := fun b => if b = 0 then [0, 1] else [2, 3],
    entry_block := 0, is_ret := fun i => i = 3, func_liveins := [],
    func_liveouts := [], is_included_in_clobbers := fun _ => true,
    num_insns := 4 }

/-- C8, witness: the check applied to the concrete critical edge 0 → 1. -/

theorem safepointsOf_mem (int : VirtualInterval) :
    ∀ (l : List Nat) (n iix sp : Nat),
      (iix, sp) ∈ safepointsOf int l n ↔
        ∃ k, sp = n + k ∧ l.get? k = some iix ∧
          int.covers (InstPoint.new_use iix) = true := by
  intro l
  induction l with
  | nil =>
    intro n iix sp
    simp [safepointsOf]
  | cons a rest ih =>
    intro n iix sp
    by_cases hc : int.covers (InstPoint.new_use a) = true
    · simp only [safepointsOf, if_pos hc, List.mem_cons, Prod.mk.injEq, ih]
      constructor
      · rintro (⟨rfl, rfl⟩ | ⟨k, rfl, hk, hcov⟩)
        · exact ⟨0, by omega, by simp, hc⟩
        · exact ⟨k + 1, by omega, by simpa using hk, hcov⟩
      · rintro ⟨k, rfl, hk, hcov⟩
        cases k with
        | zero =>
          left
          simp only [List.get?] at hk
          exact ⟨(Option.some.injEq _ _ ▸ hk).symm, by omega⟩
        | succ k =>
          right
          exact ⟨k, by omega, by simpa using hk, hcov⟩
    · simp only [safepointsOf, if_neg hc, ih]
      constructor
      · rintro ⟨k, rfl, hk, hcov⟩
        exact ⟨k + 1, by omega, by simpa using hk, hcov⟩
      · rintro ⟨k, rfl, hk, hcov⟩
        cases k with
        | zero =>
          simp only [List.get?] at hk
          cases hk
          exact absurd hcov hc
        | succ k =>
          exact ⟨k, by omega, by simpa using hk, hcov⟩

/-- The inner fold of `compute_stackmaps` preserves the number of stack maps. -/

theorem stackmaps_inner_length (slot : Nat) :
    ∀ (sps : List (Nat × Nat)) (sm : List (List Nat)),
      (sps.foldl (fun sm sp => sm.set sp.2 ((sm.getD sp.2 []) ++ [slot])) sm).length
        = sm.length := by
  intro sps
  induction sps with
  | nil => intro sm; rfl
  | cons p rest ih => intro sm; rw [List.foldl_cons, ih, List.length_set]

theorem getD_set_self {α : Type} (l : List α) (i : Nat) (a d : α)
    (h : i < l.length) : (l.set i a).getD i d = a := by
  simp [List.getD_eq_getElem?_getD, List.getElem?_set_eq_of_lt _ h]

theorem getD_set_ne {α : Type} (l : List α) (i j : Nat) (a d : α)
    (h : i ≠ j) : (l.set i a).getD j d = l.getD j d := by
  simp [List.getD_eq_getElem?_getD, List.getElem?_set_ne h]

/-- Membership in a single safepoint's stack map after the inner fold. -/

theorem stackmaps_inner_mem (slot x sp : Nat) :
    ∀ (sps : List (Nat × Nat)) (sm : List (List Nat)),
      (∀ p ∈ sps, p.2 < sm.length) →
      (x ∈ (sps.foldl (fun sm sp => sm.set sp.2 ((sm.getD sp.2 []) ++ [slot])) sm).getD sp []
        ↔ x ∈ sm.getD sp [] ∨ (x = slot ∧ ∃ iix, (iix, sp) ∈ sps)) := by
  intro sps
  induction sps with
  | nil =>
    intro sm _
    simp
  | cons p rest ih =>
    intro sm hb
    have hplen : p.2 < sm.length := hb p (List.mem_cons_self p rest)
    have hb' : ∀ q ∈ rest, q.2 < (sm.set p.2 ((sm.getD p.2 []) ++ [slot])).length := by
      intro q hq
      rw [List.length_set]
      exact hb q (List.mem_cons_of_mem p hq)
    rw [List.foldl_cons, ih _ hb']
    by_cases hsp : p.2 = sp
    · subst hsp
      rw [getD_set_self _ _ _ _ hplen]
      constructor
      · rintro (h | h)
        · rcases List.mem_append.1 h with h | h
          · exact Or.inl h
          · simp only [List.mem_singleton] at h
            exact Or.inr ⟨h, p.1, by simp⟩
        · exact Or.inr ⟨h.1, h.2.choose, List.mem_cons_of_mem _ h.2.choose_spec⟩
      · rintro (h | ⟨rfl, iix, hm⟩)
        · exact Or.inl (List.mem_append.2 (Or.inl h))
        · exact Or.inl (List.mem_append.2 (Or.inr (by simp)))
    · rw [getD_set_ne _ _ _ _ _ hsp]
      constructor
      · rintro (h | ⟨rfl, iix, hm⟩)
        · exact Or.inl h
        · exact Or.inr ⟨rfl, iix, List.mem_cons_of_mem _ hm⟩
      · rintro (h | ⟨rfl, iix, hm⟩)
        · exact Or.inl h
        · rcases List.mem_cons.1 hm with h | h
          · exact absurd (congrArg Prod.snd h).symm hsp
          · exact Or.inr ⟨rfl, iix, h⟩

/-- The step function of `compute_stackmaps`'s outer fold. -/

theorem stackmaps_step_length (sm : List (List Nat)) (int : VirtualInterval) :
    (stackmaps_step sm int).length = sm.length := by
  unfold stackmaps_step
  cases h : int.ref_typed with
  | false => rfl
  | true =>
    rw [if_neg (by simp)]
    cases hs : int.location.spill with
    | none => rfl
    | some slot => exact stackmaps_inner_length slot _ sm

/-- Membership after the outer fold of `compute_stackmaps`. -/

theorem stackmaps_outer_mem (x sp : Nat) :
    ∀ (ints : List VirtualInterval) (sm : List (List Nat)),
      (∀ int ∈ ints, ∀ p ∈ int.safepoints, p.2 < sm.length) →
      (x ∈ (ints.foldl stackmaps_step sm).getD sp []
        ↔ x ∈ sm.getD sp [] ∨
          ∃ int ∈ ints, int.ref_typed = true ∧ int.location.spill = some x ∧
            ∃ iix, (iix, sp) ∈ int.safepoints) := by
  intro ints
  induction ints with
  | nil =>
    intro sm _
    simp
  | cons int rest ih =>
    intro sm hb
    have hstep : (stackmaps_step sm int).length = sm.length := stackmaps_step_length sm int
    have hb' : ∀ i ∈ rest, ∀ p ∈ i.safepoints, p.2 < (stackmaps_step sm int).length := by
      intro i hi p hp
      rw [hstep]
      exact hb i (List.mem_cons_of_mem _ hi) p hp
    rw [List.foldl_cons, ih _ hb']
    have hmem : x ∈ (stackmaps_step sm int).getD sp [] ↔
        x ∈ sm.getD sp [] ∨
          (int.ref_typed = true ∧ int.location.spill = some x ∧
            ∃ iix, (iix, sp) ∈ int.safepoints) := by
      unfold stackmaps_step
      cases h : int.ref_typed with
      | false => simp [h]
      | true =>
        rw [if_neg (by simp)]
        cases hs : int.location.spill with
        | none => simp [hs]
        | some slot =>
          rw [stackmaps_inner_mem slot x sp _ sm (hb int (List.mem_cons_self _ _))]
          constructor
          · rintro (hx | ⟨rfl, iix, hiix⟩)
            · exact Or.inl hx
            · exact Or.inr ⟨rfl, rfl, iix, hiix⟩
          · rintro (hx | ⟨_, hslot, iix, hiix⟩)
            · exact Or.inl hx
            · cases hslot
              exact Or.inr ⟨rfl, iix, hiix⟩
    rw [hmem]
    constructor
    · rintro ((hx | hint) | ⟨i, hi, hrest⟩)
      · exact Or.inl hx
      · exact Or.inr ⟨int, List.mem_cons_self _ _, hint⟩
      · exact Or.inr ⟨i, List.mem_cons_of_mem _ hi, hrest⟩
    · rintro (hx | ⟨i, hi, hrest⟩)
      · exact Or.inl (Or.inl hx)
      · rcases List.mem_cons.1 hi with rfl | hi
        · exact Or.inl (Or.inr hrest)
        · exact Or.inr ⟨i, hi, hrest⟩

theorem compute_stackmaps_eq_fold (intervals : List VirtualInterval)
    (request : StackmapRequestInfo) :
    compute_stackmaps intervals (some request)
      = intervals.foldl stackmaps_step
          (List.replicate request.safepoint_insns.length []) := by
  rfl

/-- First interval of the concrete C1 scenario: ref-typed, spilled to slot 5,
covering instructions 0..10, with the single requested safepoint at
instruction 7 recorded. -/

theorem compute_stackmaps_unsorted_cex :
    compute_stackmaps [c1_int0, c1_int1] (some c1_request) = [[5, 2]] ∧
    claimed_stackmaps [c1_int0, c1_int1] c1_request = [[2, 5]] ∧
    compute_stackmaps [c1_int0, c1_int1] (some c1_request)
      ≠ claimed_stackmaps [c1_int0, c1_int1] c1_request :=
  ⟨by decide, by decide, by decide⟩

/-- C1 (amended): for each caller-supplied safepoint, the emitted stack map
holds exactly the `SpillSlot`s of the reference-typed virtual intervals whose
assigned location is a stack slot and whose live range covers that safepoint's
`Use` point -- as a set; the slots appear in interval order rather than
sorted.  Intervals that are not ref-typed or not stack-resident contribute
nothing. -/

theorem compute_stackmaps_membership
    (intervals : List VirtualInterval) (request : StackmapRequestInfo)
    (hwf : ∀ int ∈ intervals, safepointsWF request int)
    (sp : Nat) (hsp : sp < request.safepoint_insns.length) (slot : Nat) :
    slot ∈ (compute_stackmaps intervals (some request)).getD sp [] ↔
      ∃ int ∈ intervals, int.ref_typed = true ∧ int.location.spill = some slot ∧
        ∃ iix, request.safepoint_insns.get? sp = some iix ∧
          int.covers (InstPoint.new_use iix) = true := by
  rw [compute_stackmaps_eq_fold]
  have hb : ∀ int ∈ intervals, ∀ p ∈ int.safepoints,
      p.2 < (List.replicate request.safepoint_insns.length ([] : List Nat)).length := by
    intro int hint p hp
    rcases p with ⟨iix0, sp0⟩
    rw [List.length_replicate]
    rw [hwf int hint] at hp
    rcases (safepointsOf_mem int request.safepoint_insns 0 iix0 sp0).1 hp with
      ⟨k, hk, hget, _⟩
    rcases List.get?_eq_some.1 hget with ⟨hlt, _⟩
    omega
  rw [stackmaps_outer_mem slot sp intervals _ hb]
  constructor
  · rintro (habs | ⟨int, hint, href, hspill, iix, hiix⟩)
    · exact absurd habs
        (by simp [List.getD_eq_getElem?_getD, List.getElem?_replicate, hsp])
    · refine ⟨int, hint, href, hspill, iix, ?_, ?_⟩
      · rw [hwf int hint] at hiix
        rcases (safepointsOf_mem int request.safepoint_insns 0 iix sp).1 hiix with
          ⟨k, hk, hget, _⟩
        have : k = sp := by omega
        exact this ▸ hget
      · rw [hwf int hint] at hiix
        rcases (safepointsOf_mem int request.safepoint_insns 0 iix sp).1 hiix with
          ⟨k, hk, _, hcov⟩
        exact hcov
  · rintro ⟨int, hint, href, hspill, iix, hget, hcov⟩
    refine Or.inr ⟨int, hint, href, hspill, iix, ?_⟩
    rw [hwf int hint]
    exact (safepointsOf_mem int request.safepoint_insns 0 iix sp).2
      ⟨sp, by omega, hget, hcov⟩

/-- C1, witness: the characterization evaluated on the concrete scenario. -/

theorem compute_stackmaps_membership_witness :
    (5 ∈ (compute_stackmaps [c1_int0, c1_int1] (some c1_request)).getD 0 [] ↔
      ∃ int ∈ [c1_int0, c1_int1], int.ref_typed = true ∧
        int.location.spill = some 5 ∧
        ∃ iix, c1_request.safepoint_insns.get? 0 = some iix ∧
          int.covers (InstPoint.new_use iix) = true) :=
  compute_stackmaps_membership [c1_int0, c1_int1] c1_request
    (by simp only [safepointsWF]; decide) 0 (by decide) 5

/-- The `Function` capabilities consumed by the embedded passes (spec §6).
`blocks()` is the contiguous range `0 .. num_blocks` of block indices with the
entry first, matching the source's typed index ranges; `block_insns` gives
each block's contiguous instruction range as a list; `insn_indices()` is the
range `0 .. num_insns`. -/

theorem mul_ten_fold (d : Nat) :
    (List.range d).foldl (fun f _ => f * 10) 1 = 10 ^ d := by
  induction d with
  | zero => rfl
  | succ d ih => rw [List.range_succ, List.foldl_append, ih, pow_succ]; rfl

/-- C9: the estimated execution frequency of each block equals
`10 ^ min(loop depth, 3)`; hence every frequency is 1, 10, 100 or 1000, and
the vector has exactly one entry per block, in block-index order. -/

theorem depth_based_frequencies_spec (num_blocks : Nat) (depth_map : Nat → Nat) :
    (DepthBasedFrequencies.new num_blocks depth_map).length = num_blocks ∧
    (∀ bix, bix < num_blocks →
      (DepthBasedFrequencies.new num_blocks depth_map).get? bix
        = some (10 ^ Nat.min (depth_map bix) 3)) ∧
    (∀ v ∈ DepthBasedFrequencies.new num_blocks depth_map,
      v = 1 ∨ v = 10 ∨ v = 100 ∨ v = 1000) := by
  refine ⟨by simp [DepthBasedFrequencies.new], ?_, ?_⟩
  · intro bix hbix
    simp [DepthBasedFrequencies.new, List.get?_eq_getElem?, List.getElem?_map,
      List.getElem?_range, hbix, mul_ten_fold]
  · intro v hv
    simp only [DepthBasedFrequencies.new, List.mem_map, List.mem_range] at hv
    rcases hv with ⟨bix, _, rfl⟩
    rw [mul_ten_fold]
    have h3 : Nat.min (depth_map bix) 3 ≤ 3 := Nat.min_le_right _ _
    interval_cases h : Nat.min (depth_map bix) 3 <;> simp

/-- C9, witness: the frequency vector on a three-block function whose loop
depths are 0, 2 and 7. -/

theorem depth_based_frequencies_spec_witness :
    (DepthBasedFrequencies.new 3 (fun b => if b = 0 then 0 else if b = 1 then 2 else 7)).length = 3 ∧
    (DepthBasedFrequencies.new 3 (fun b => if b = 0 then 0 else if b = 1 then 2 else 7)).get? 2
      = some (10 ^ Nat.min 7 3) ∧
    (100 ∈ DepthBasedFrequencies.new 3 (fun b => if b = 0 then 0 else if b = 1 then 2 else 7) →
      (100 = 1 ∨ 100 = 10 ∨ 100 = 100 ∨ 100 = 1000)) :=
  ⟨(depth_based_frequencies_spec 3 _).1,
   (depth_based_frequencies_spec 3 _).2.1 2 (by decide),
   (depth_based_frequencies_spec 3 _).2.2 100⟩

/-- Modelled from the spec: sparse-set union over dense register indices
(`SparseSet::union` in sparse_set.rs, absent from the sources); the result
holds exactly the members of both operands. -/

theorem sparseUnion_mem (a b : List Reg) (x : Reg) :
    x ∈ sparseUnion a b ↔ x ∈ a ∨ x ∈ b := by
  simp only [sparseUnion, List.mem_append, List.mem_filter, decide_eq_true_eq]
  constructor
  · rintro (h | ⟨h, _⟩)
    · exact Or.inl h
    · exact Or.inr h
  · rintro (h | h)
    · exact Or.inl h
    · by_cases ha : x ∈ a
      · exact Or.inl ha
      · exact Or.inr ⟨h, ha⟩

/-- The return-block live-out amendment of `run_analysis` (analysis_main.rs):
"Add function liveouts to every block ending in a return" -- for each block
whose last instruction satisfies `is_ret`, union the function-level live-outs
into that block's live-out set. -/

theorem add_liveouts_fold (f : FuncData) (func_liveouts : List Reg) :
    ∀ (blocks : List Nat) (sets : List (List Reg)),
      blocks.Nodup → (∀ b ∈ blocks, b < sets.length) →
      ∀ bix,
        (blocks.foldl
          (fun sets block =>
            let last_iix := (f.block_insns block).getLastD 0
            if f.is_ret last_iix then
              sets.set block (sparseUnion (sets.getD block []) func_liveouts)
            else sets)
          sets).getD bix []
        = (if bix ∈ blocks ∧ f.is_ret ((f.block_insns bix).getLastD 0) = true then
             sparseUnion (sets.getD bix []) func_liveouts
           else sets.getD bix []) := by
  intro blocks
  induction blocks with
  | nil =>
    intro sets _ _ bix
    simp
  | cons b rest ih =>
    intro sets hnd hb bix
    have hblen : b < sets.length := hb b (List.mem_cons_self _ _)
    have hnd' : rest.Nodup := (List.nodup_cons.1 hnd).2
    have hbnotin : b ∉ rest := (List.nodup_cons.1 hnd).1
    rw [List.foldl_cons]
    set sets' :=
      (if f.is_ret ((f.block_insns b).getLastD 0) then
        sets.set b (sparseUnion (sets.getD b []) func_liveouts)
      else sets) with hsets'
    have hlen' : sets'.length = sets.length := by
      rw [hsets']
      split
      · exact List.length_set _ _ _
      · rfl
    have hb' : ∀ x ∈ rest, x < sets'.length := by
      intro x hx
      rw [hlen']
      exact hb x (List.mem_cons_of_mem _ hx)
    rw [ih sets' hnd' hb' bix]
    by_cases hbix : bix = b
    · subst hbix
      have hnotr : bix ∉ rest := hbnotin
      rw [if_neg (by simp [hnotr])]
      rw [hsets']
      by_cases hret : f.is_ret ((f.block_insns bix).getLastD 0)
      · rw [if_pos hret, if_pos ⟨List.mem_cons_self _ _, hret⟩,
          getD_set_self _ _ _ _ hblen]
      · rw [if_neg hret,
          if_neg (by rintro ⟨_, h⟩; exact hret h)]
    · have hsets'bix : sets'.getD bix [] = sets.getD bix [] := by
        rw [hsets']
        split
        · exact getD_set_ne _ _ _ _ _ (fun h => hbix h.symm)
        · rfl
      rw [hsets'bix]
      by_cases hinr : bix ∈ rest
      · by_cases hret : f.is_ret ((f.block_insns bix).getLastD 0)
        · rw [if_pos ⟨hinr, hret⟩, if_pos ⟨List.mem_cons_of_mem _ hinr, hret⟩]
        · rw [if_neg (by rintro ⟨_, h⟩; exact hret h),
            if_neg (by rintro ⟨_, h⟩; exact hret h)]
      · rw [if_neg (by rintro ⟨h, _⟩; exact hinr h),
          if_neg (by
            rintro ⟨h, _⟩
            rcases List.mem_cons.1 h with h | h
            · exact hbix h
            · exact hinr h)]

/-- C7: after the live-in/live-out fixed point, the function-level live-outs
are unioned into the live-out set of exactly those blocks whose last
instruction is a return, and all other blocks' live-out sets are unchanged. -/

theorem liveout_ret_blocks (f : FuncData) (liveout_sets : List (List Reg))
    (func_liveouts : List Reg)
    (hlen : liveout_sets.length = f.num_blocks)
    (bix : Nat) (hbix : bix < f.num_blocks) :
    ((f.is_ret ((f.block_insns bix).getLastD 0) = true →
        (add_liveouts f liveout_sets func_liveouts).getD bix []
          = sparseUnion (liveout_sets.getD bix []) func_liveouts) ∧
     (f.is_ret ((f.block_insns bix).getLastD 0) = false →
        (add_liveouts f liveout_sets func_liveouts).getD bix []
          = liveout_sets.getD bix []) ∧
     (∀ x, x ∈ (add_liveouts f liveout_sets func_liveouts).getD bix [] ↔
        x ∈ liveout_sets.getD bix [] ∨
          (f.is_ret ((f.block_insns bix).getLastD 0) = true ∧ x ∈ func_liveouts))) := by
  have hfold := add_liveouts_fold f func_liveouts (List.range f.num_blocks)
    liveout_sets (List.nodup_range _)
    (by intro b hb; rw [hlen]; exact List.mem_range.1 hb) bix
  have hmem : bix ∈ List.range f.num_blocks := List.mem_range.2 hbix
  refine ⟨?_, ?_, ?_⟩
  · intro hret
    rw [add_liveouts, hfold, if_pos ⟨hmem, hret⟩]
  · intro hret
    rw [add_liveouts, hfold, if_neg (by rintro ⟨_, h⟩; rw [hret] at h; cases h)]
  · intro x
    rw [add_liveouts, hfold]
    by_cases hret : f.is_ret ((f.block_insns bix).getLastD 0)
    · rw [if_pos ⟨hmem, hret⟩, sparseUnion_mem]
      constructor
      · rintro (h | h)
        · exact Or.inl h
        · exact Or.inr ⟨hret, h⟩
      · rintro (h | ⟨_, h⟩)
        · exact Or.inl h
        · exact Or.inr h
    · rw [if_neg (by rintro ⟨_, h⟩; exact hret h)]
      constructor
      · exact Or.inl
      · rintro (h | ⟨h, _⟩)
        · exact h
        · exact absurd h hret

/-- A tiny two-block function for the C7 witness: block 0 falls through,
block 1 ends in a return. -/

theorem liveout_ret_blocks_witness :
    ((c7_func.is_ret ((c7_func.block_insns 1).getLastD 0) = true →
        (add_liveouts c7_func [[Reg.virt 9 0], []] [Reg.real 0 0]).getD 1 []
          = sparseUnion ([[Reg.virt 9 0], ([] : List Reg)].getD 1 []) [Reg.real 0 0]) ∧
     (c7_func.is_ret ((c7_func.block_insns 1).getLastD 0) = false →
        (add_liveouts c7_func [[Reg.virt 9 0], []] [Reg.real 0 0]).getD 1 []
          = [[Reg.virt 9 0], ([] : List Reg)].getD 1 []) ∧
     (∀ x, x ∈ (add_liveouts c7_func [[Reg.virt 9 0], []] [Reg.real 0 0]).getD 1 [] ↔
        x ∈ [[Reg.virt 9 0], ([] : List Reg)].getD 1 [] ∨
          (c7_func.is_ret ((c7_func.block_insns 1).getLastD 0) = true ∧
            x ∈ [Reg.real 0 0]))) :=
  liveout_ret_blocks c7_func [[Reg.virt 9 0], []] [Reg.real 0 0] (by decide) 1
    (by decide)

/-- Analysis failures (`AnalysisError` in analysis_main.rs). -/

theorem compute_scratches_loop_ok (regs : List RealReg) :
    ∀ (l : List (Option RegClassInfo)) (i : Nat) (s : List (Option RealReg)),
      compute_scratches_loop regs l i = .ok s →
      ∀ j info, l.get? j = some (some info) →
        info.first ≠ info.last ∧ info.suggested_scratch ≠ Option.none := by
  intro l
  induction l with
  | nil =>
    intro i s _ j info hj
    simp at hj
  | cons head rest ih =>
    intro i s hok j info hj
    cases head with
    | none =>
      cases hrec : compute_scratches_loop regs rest (i + 1) with
      | error e =>
        simp only [compute_scratches_loop, hrec, Except.map] at hok
        exact Except.noConfusion hok
      | ok s' =>
        cases j with
        | zero => simp at hj
        | succ j => exact ih (i + 1) s' hrec j info (by simpa using hj)
    | some info' =>
      by_cases hfl : (info'.first == info'.last) = true
      · simp only [compute_scratches_loop, if_pos hfl] at hok
        exact Except.noConfusion hok
      · cases hss : info'.suggested_scratch with
        | none =>
          simp only [compute_scratches_loop, if_neg hfl, hss] at hok
          exact Except.noConfusion hok
        | some sr =>
          cases hrec : compute_scratches_loop regs rest (i + 1) with
          | error e =>
            simp only [compute_scratches_loop, if_neg hfl, hss, hrec,
              Except.map] at hok
            exact Except.noConfusion hok
          | ok s' =>
            cases j with
            | zero =>
              simp only [List.get?, Option.some.injEq] at hj
              cases hj
              refine ⟨?_, by simp [hss]⟩
              intro hcontra
              exact hfl (by simp [hcontra])
            | succ j =>
              exact ih (i + 1) s' hrec j info (by simpa using hj)

theorem compute_scratches_loop_error (regs : List RealReg) :
    ∀ (l : List (Option RegClassInfo)) (i : Nat) (e : RegAllocError),
      compute_scratches_loop regs l i = .error e →
      e = .Other "at least 2 registers required for linear scan" ∨
        ∃ rc, e = .MissingSuggestedScratchReg rc := by
  intro l
  induction l with
  | nil =>
    intro i e he
    simp [compute_scratches_loop] at he
  | cons head rest ih =>
    intro i e he
    cases head with
    | none =>
      cases hrec : compute_scratches_loop regs rest (i + 1) with
      | error e' =>
        simp only [compute_scratches_loop, hrec, Except.map,
          Except.error.injEq] at he
        exact he ▸ ih (i + 1) e' hrec
      | ok s' =>
        simp only [compute_scratches_loop, hrec, Except.map] at he
        exact Except.noConfusion he
    | some info' =>
      by_cases hfl : (info'.first == info'.last) = true
      · simp only [compute_scratches_loop, if_pos hfl, Except.error.injEq] at he
        exact Or.inl he.symm
      · cases hss : info'.suggested_scratch with
        | none =>
          simp only [compute_scratches_loop, if_neg hfl, hss,
            Except.error.injEq] at he
          exact Or.inr ⟨i, he.symm⟩
        | some sr =>
          cases hrec : compute_scratches_loop regs rest (i + 1) with
          | error e' =>
            simp only [compute_scratches_loop, if_neg hfl, hss, hrec,
              Except.map, Except.error.injEq] at he
            exact he ▸ ih (i + 1) e' hrec
          | ok s' =>
            simp only [compute_scratches_loop, if_neg hfl, hss, hrec,
              Except.map] at he
            exact Except.noConfusion he

/-- C5, counterexample: a universe whose only class holds exactly one register
(yet does have a suggested scratch) makes `compute_scratches` fail with
`Other("at least 2 registers required for linear scan")` -- not with
`OutOfRegisters`, as the claim states. -/

theorem compute_scratches_not_out_of_registers_cex :
    compute_scratches c5_universe
        = .error (.Other "at least 2 registers required for linear scan") ∧
      isOutOfRegisters (compute_scratches c5_universe) = false :=
  ⟨rfl, rfl⟩

/-- C5 (amended): if a class present in the universe has exactly one
allocatable register or lacks a suggested scratch register, the linear-scan
allocator fails up front: `compute_scratches` returns
`Other("at least 2 registers required for linear scan")` or
`MissingSuggestedScratchReg(class)` -- never `OutOfRegisters` -- and `run`
propagates that error before the function-rewriting passes, so no rewritten
function is produced. -/

theorem compute_scratches_error_kinds (u : RealRegUniverse) (j : Nat)
    (info : RegClassInfo)
    (hj : u.allocable_by_class.get? j = some (some info))
    (hbad : info.first = info.last ∨ info.suggested_scratch = Option.none) :
    ∃ e, compute_scratches u = .error e ∧
      isOutOfRegisters (compute_scratches u) = false ∧
      (e = .Other "at least 2 registers required for linear scan" ∨
        ∃ rc, e = .MissingSuggestedScratchReg rc) ∧
      ∀ (analysis_info : LsAnalysisInfo)
        (assign : List (Option RealReg) → List VirtualInterval →
          Except RegAllocError (List VirtualInterval × Nat))
        (resolve : List VirtualInterval → Nat → Nat × Nat)
        (checker_result : Except Unit Unit)
        (inst_stream : Except String (Nat × Nat × Nat × List Nat))
        (f : FuncData) (stackmap_request : Option StackmapRequestInfo)
        (use_checker : Bool),
        run (.ok analysis_info) assign resolve checker_result inst_stream f u
          stackmap_request use_checker = .error e := by
  cases hcs : compute_scratches u with
  | ok s =>
    exfalso
    rcases compute_scratches_loop_ok u.regs u.allocable_by_class 0 s hcs j info hj
      with ⟨h1, h2⟩
    rcases hbad with h | h
    · exact h1 h
    · exact h2 h
  | error e =>
    refine ⟨e, rfl, ?_, compute_scratches_loop_error u.regs _ 0 e hcs, ?_⟩
    · rcases compute_scratches_loop_error u.regs _ 0 e hcs with h | ⟨rc, h⟩ <;>
        subst h <;> rfl
    · intro analysis_info assign resolve checker_result inst_stream f
        stackmap_request use_checker
      simp only [run, hcs]

/-- C5, witness: the amended statement evaluated on the one-register
universe. -/

theorem compute_scratches_error_kinds_witness :
    ∃ e, compute_scratches c5_universe = .error e ∧
      isOutOfRegisters (compute_scratches c5_universe) = false ∧
      (e = .Other "at least 2 registers required for linear scan" ∨
        ∃ rc, e = .MissingSuggestedScratchReg rc) ∧
      ∀ (analysis_info : LsAnalysisInfo)
        (assign : List (Option RealReg) → List VirtualInterval →
          Except RegAllocError (List VirtualInterval × Nat))
        (resolve : List VirtualInterval → Nat → Nat × Nat)
        (checker_result : Except Unit Unit)
        (inst_stream : Except String (Nat × Nat × Nat × List Nat))
        (f : FuncData) (stackmap_request : Option StackmapRequestInfo)
        (use_checker : Bool),
        run (.ok analysis_info) assign resolve checker_result inst_stream f
          c5_universe stackmap_request use_checker = .error e :=
  compute_scratches_error_kinds c5_universe 0 ⟨0, 0, some 0⟩ rfl (Or.inl rfl)

theorem set_use_lookup_use (m : Mapper) (w v : Nat) (r : RealReg) :
    (m.set_use w r).lookup_use v = if v = w then some r else m.lookup_use v := rfl

theorem set_use_lookup_def (m : Mapper) (w v : Nat) (r : RealReg) :
    (m.set_use w r).lookup_def v = m.lookup_def v := rfl

theorem set_def_lookup_def (m : Mapper) (w v : Nat) (r : RealReg) :
    (m.set_def w r).lookup_def v = if v = w then some r else m.lookup_def v := rfl

theorem set_def_lookup_use (m : Mapper) (w v : Nat) (r : RealReg) :
    (m.set_def w r).lookup_use v = m.lookup_use v := rfl

/-- The use-side lookup after one mention step: set exactly by a use or mod
mention of that virtual register. -/

theorem mention_step_lookup_use (inc : Nat → Bool) (st : Mapper × List RealReg)
    (e : MentionEntry) (v : Nat) :
    (mention_step inc st e).1.lookup_use v =
      if v = e.vreg ∧ (e.mention.is_use = true ∨ e.mention.is_mod = true) then
        some e.rreg
      else st.1.lookup_use v := by
  by_cases h1 : e.mention.is_use = true <;>
    by_cases h2 : e.mention.is_mod = true <;>
    by_cases h3 : e.mention.is_def = true <;>
    by_cases hv : v = e.vreg <;>
    simp [mention_step, set_use_lookup_use, set_use_lookup_def,
      set_def_lookup_use, set_def_lookup_def, h1, h2, h3, hv]

/-- The def-side lookup after one mention step: set exactly by a mod or def
mention of that virtual register. -/

theorem mention_step_lookup_def (inc : Nat → Bool) (st : Mapper × List RealReg)
    (e : MentionEntry) (v : Nat) :
    (mention_step inc st e).1.lookup_def v =
      if v = e.vreg ∧ (e.mention.is_mod = true ∨ e.mention.is_def = true) then
        some e.rreg
      else st.1.lookup_def v := by
  by_cases h1 : e.mention.is_use = true <;>
    by_cases h2 : e.mention.is_mod = true <;>
    by_cases h3 : e.mention.is_def = true <;>
    by_cases hv : v = e.vreg <;>
    simp [mention_step, set_use_lookup_use, set_use_lookup_def,
      set_def_lookup_use, set_def_lookup_def, h1, h2, h3, hv]

/-- Folding further mention entries that either belong to other virtual
registers or carry the same real register preserves established lookups. -/

theorem fold_preserve (inc : Nat → Bool) (v : Nat) (r : RealReg) :
    ∀ (l : List MentionEntry) (st : Mapper × List RealReg),
      (∀ e ∈ l, e.vreg ≠ v ∨ e.rreg = r) →
      st.1.lookup_use v = some r → st.1.lookup_def v = some r →
      ((l.foldl (mention_step inc) st).1.lookup_use v = some r ∧
       (l.foldl (mention_step inc) st).1.lookup_def v = some r) := by
  intro l
  induction l with
  | nil =>
    intro st _ hu hd
    exact ⟨hu, hd⟩
  | cons a rest ih =>
    intro st hl hu hd
    rw [List.foldl_cons]
    refine ih (mention_step inc st a) (fun e he => hl e (List.mem_cons_of_mem _ he)) ?_ ?_
    · rw [mention_step_lookup_use]
      rcases hl a (List.mem_cons_self _ _) with hne | hrr
      · rw [if_neg (by rintro ⟨rfl, _⟩; exact hne rfl)]
        exact hu
      · split
        · rw [hrr]
        · exact hu
    · rw [mention_step_lookup_def]
      rcases hl a (List.mem_cons_self _ _) with hne | hrr
      · rw [if_neg (by rintro ⟨rfl, _⟩; exact hne rfl)]
        exact hd
      · split
        · rw [hrr]
        · exact hd

/-- Folding a group that contains a Mod mention of `e.vreg`, all of whose
entries for that virtual register agree with `e`, leaves both sides of the
mapper at `e.rreg`. -/

theorem group_fold_mod (inc : Nat → Bool) (e : MentionEntry)
    (hmod : e.mention.is_mod = true) :
    ∀ (l : List MentionEntry) (st : Mapper × List RealReg),
      e ∈ l → (∀ e' ∈ l, e' = e ∨ e'.vreg ≠ e.vreg) →
      ((l.foldl (mention_step inc) st).1.lookup_use e.vreg = some e.rreg ∧
       (l.foldl (mention_step inc) st).1.lookup_def e.vreg = some e.rreg) := by
  intro l
  induction l with
  | nil =>
    intro st h _
    cases h
  | cons a rest ih =>
    intro st hmem huniq
    rw [List.foldl_cons]
    rcases List.mem_cons.1 hmem with rfl | hmem'
    · refine fold_preserve inc e.vreg e.rreg rest (mention_step inc st e) ?_ ?_ ?_
      · intro e' he'
        rcases huniq e' (List.mem_cons_of_mem _ he') with rfl | hne
        · exact Or.inr rfl
        · exact Or.inl hne
      · rw [mention_step_lookup_use, if_pos ⟨rfl, Or.inr hmod⟩]
      · rw [mention_step_lookup_def, if_pos ⟨rfl, Or.inl hmod⟩]
    · exact ih (mention_step inc st a) hmem'
        (fun e' he' => huniq e' (List.mem_cons_of_mem _ he'))

theorem setInsert_mem (s : List RealReg) (r x : RealReg) :
    x ∈ setInsert s r ↔ x ∈ s ∨ x = r := by
  unfold setInsert
  split
  · constructor
    · exact Or.inl
    · rintro (h | rfl)
      · exact h
      · assumption
  · simp

/-- Membership in the clobbered set after one mention step: added exactly by
a mod or def mention of an instruction included in clobbers. -/

theorem mention_step_clob_mem (inc : Nat → Bool) (st : Mapper × List RealReg)
    (e : MentionEntry) (x : RealReg) :
    x ∈ (mention_step inc st e).2 ↔
      x ∈ st.2 ∨ ((e.mention.is_mod = true ∨ e.mention.is_def = true) ∧
        inc e.iix = true ∧ x = e.rreg) := by
  by_cases h2 : e.mention.is_mod = true <;>
    by_cases h3 : e.mention.is_def = true <;>
    by_cases hi : inc e.iix = true <;>
    simp [mention_step, setInsert_mem, h2, h3, hi]

theorem group_fold_clob (inc : Nat → Bool) (x : RealReg) :
    ∀ (l : List MentionEntry) (st : Mapper × List RealReg),
      (x ∈ (l.foldl (mention_step inc) st).2 ↔
        x ∈ st.2 ∨ ∃ e ∈ l, (e.mention.is_mod = true ∨ e.mention.is_def = true) ∧
          inc e.iix = true ∧ x = e.rreg) := by
  intro l
  induction l with
  | nil =>
    intro st
    simp
  | cons a rest ih =>
    intro st
    rw [List.foldl_cons, ih, mention_step_clob_mem]
    constructor
    · rintro ((h | h) | ⟨e, he, hp⟩)
      · exact Or.inl h
      · exact Or.inr ⟨a, List.mem_cons_self _ _, h⟩
      · exact Or.inr ⟨e, List.mem_cons_of_mem _ he, hp⟩
    · rintro (h | ⟨e, he, hp⟩)
      · exact Or.inl (Or.inl h)
      · rcases List.mem_cons.1 he with rfl | he'
        · exact Or.inl (Or.inr hp)
        · exact Or.inr ⟨e, he', hp⟩

theorem sortByIix_sorted (l : List MentionEntry) :
    List.Sorted (fun a b => a.iix ≤ b.iix) (sortByIix l) :=
  List.sorted_insertionSort _ l

theorem sortByIix_perm (l : List MentionEntry) :
    List.Perm (sortByIix l) l :=
  List.perm_insertionSort _ l

/-- On a sorted mention map with no key below `iix`, the `takeWhile` prefix is
exactly the entries of instruction `iix` and everything after has a larger
key. -/

theorem sorted_span (iix : Nat) :
    ∀ (l : List MentionEntry),
      List.Sorted (fun a b => a.iix ≤ b.iix) l →
      (∀ e ∈ l, iix ≤ e.iix) →
      (l.takeWhile (fun e => e.iix == iix) = l.filter (fun e => e.iix == iix) ∧
       ∀ e ∈ l.dropWhile (fun e => e.iix == iix), iix < e.iix) := by
  intro l
  induction l with
  | nil => exact fun _ _ => ⟨rfl, by simp⟩
  | cons a rest ih =>
    intro hs hb
    have hrest_sorted : List.Sorted (fun a b : MentionEntry => a.iix ≤ b.iix) rest :=
      hs.of_cons
    have hhead := List.rel_of_sorted_cons hs
    by_cases ha : (a.iix == iix) = true
    · have hbrest : ∀ e ∈ rest, iix ≤ e.iix :=
        fun e he => hb e (List.mem_cons_of_mem _ he)
      rcases ih hrest_sorted hbrest with ⟨h1, h2⟩
      constructor
      · simp only [List.takeWhile_cons, List.filter_cons, ha, ite_true]
        rw [h1]
      · simp only [List.dropWhile_cons, ha, ite_true]
        exact h2
    · have haiix : iix < a.iix := by
        have h1 := hb a (List.mem_cons_self _ _)
        have h2 : a.iix ≠ iix := by simpa using ha
        omega
      have ha' : (a.iix == iix) = false := by simpa using ha
      constructor
      · simp only [List.takeWhile_cons, List.filter_cons, ha', Bool.false_eq_true,
          ite_false]
        symm
        rw [List.filter_eq_nil_iff]
        intro e he
        have hle : a.iix ≤ e.iix := hhead e he
        have hne : a.iix ≠ iix := by simpa using ha
        simp only [beq_iff_eq]
        omega
      · simp only [List.dropWhile_cons, ha', Bool.false_eq_true, ite_false]
        intro e he
        rcases List.mem_cons.1 he with rfl | he'
        · exact haiix
        · have := hhead e he'
          omega

/-- The mapper component of the mention fold does not depend on the clobbered
set threaded through the state. -/

theorem fold_mapper_proj (inc : Nat → Bool) :
    ∀ (l : List MentionEntry) (st st' : Mapper × List RealReg),
      st.1 = st'.1 →
      (l.foldl (mention_step inc) st).1 = (l.foldl (mention_step inc) st').1 := by
  intro l
  induction l with
  | nil =>
    intro st st' h
    exact h
  | cons a rest ih =>
    intro st st' h
    rw [List.foldl_cons, List.foldl_cons]
    refine ih _ _ ?_
    rcases st with ⟨m, c⟩
    rcases st' with ⟨m', c'⟩
    simp only at h
    subst h
    rfl

/-- The instruction loop records, for every instruction of the range, the
mapper obtained by folding exactly that instruction's mention entries from a
cleared mapper. -/

theorem set_registers_loop_mapper (inc : Nat → Bool) :
    ∀ (insns : List Nat) (entries : List MentionEntry) (clob : List RealReg),
      List.Sorted (fun a b => a.iix ≤ b.iix) entries →
      List.Pairwise (· < ·) insns →
      (∀ e ∈ entries, e.iix ∈ insns) →
      ∀ iix, iix ∈ insns →
        ((iix, ((entries.filter (fun e => e.iix == iix)).foldl
            (mention_step inc) (Mapper.empty, ([] : List RealReg))).1)
          ∈ (set_registers_loop inc entries insns clob).2) := by
  intro insns
  induction insns with
  | nil =>
    intro entries clob _ _ _ iix h
    cases h
  | cons j rest ih =>
    intro entries clob hsorted hpair hcov iix hiix
    have hjlt : ∀ k ∈ rest, j < k := fun k hk => List.rel_of_pairwise_cons hpair hk
    have hlb : ∀ e ∈ entries, j ≤ e.iix := by
      intro e he
      rcases List.mem_cons.1 (hcov e he) with h | h
      · omega
      · exact Nat.le_of_lt (hjlt _ h)
    rcases sorted_span j entries hsorted hlb with ⟨hspan, hdrop⟩
    simp only [set_registers_loop]
    rcases List.mem_cons.1 hiix with rfl | hiix'
    · refine List.mem_cons.2 (Or.inl ?_)
      refine Prod.ext rfl ?_
      simp only
      rw [hspan]
      exact fold_mapper_proj inc (entries.filter (fun e => e.iix == iix))
        (Mapper.empty, []) (Mapper.empty, clob) rfl
    · have hjne : j ≠ iix := by
        have := hjlt iix hiix'
        omega
      have hfil : entries.filter (fun e => e.iix == iix)
          = (entries.dropWhile (fun e => e.iix == j)).filter
              (fun e => e.iix == iix) := by
        conv_lhs =>
          rw [← List.takeWhile_append_dropWhile (fun e => e.iix == j) entries]
        rw [List.filter_append, hspan]
        have hnil : (entries.filter (fun e => e.iix == j)).filter
            (fun e => e.iix == iix) = [] := by
          rw [List.filter_eq_nil_iff]
          intro e he
          rcases List.mem_filter.1 he with ⟨_, hkey⟩
          have : e.iix = j := by simpa using hkey
          simp only [beq_iff_eq]
          omega
        rw [hnil, List.nil_append]
      refine List.mem_cons.2 (Or.inr ?_)
      rw [hfil]
      refine ih (entries.dropWhile (fun e => e.iix == j)) _ ?_ ?_ ?_ iix hiix'
      · exact hsorted.sublist (List.dropWhile_sublist _)
      · exact (List.pairwise_cons.1 hpair).2
      · intro e he
        have hmem : e ∈ entries := (List.dropWhile_sublist _).subset he
        rcases List.mem_cons.1 (hcov e hmem) with h | h
        · exfalso
          have := hdrop e he
          omega
        · exact h

theorem build_mention_map_aux (e : MentionEntry) :
    ∀ (ints : List VirtualInterval) (acc : List MentionEntry),
      e ∈ ints.foldl
        (fun acc int =>
          match int.location.getReg with
          | some rreg => acc ++ int.mentions.map (fun m => ⟨m.1, m.2, int.vreg, rreg⟩)
          | Option.none => acc)
        acc →
      e ∈ acc ∨ ∃ int ∈ ints, int.location.getReg = some e.rreg ∧
        (e.iix, e.mention) ∈ int.mentions ∧ e.vreg = int.vreg := by
  intro ints
  induction ints with
  | nil =>
    intro acc h
    exact Or.inl h
  | cons int rest ih =>
    intro acc h
    rw [List.foldl_cons] at h
    cases hreg : int.location.getReg with
    | none =>
      rw [hreg] at h
      rcases ih _ h with h | ⟨i, hi, hp⟩
      · exact Or.inl h
      · exact Or.inr ⟨i, List.mem_cons_of_mem _ hi, hp⟩
    | some rreg =>
      rw [hreg] at h
      rcases ih _ h with h | ⟨i, hi, hp⟩
      · rcases List.mem_append.1 h with h | h
        · exact Or.inl h
        · rcases List.mem_map.1 h with ⟨m, hm, hme⟩
          refine Or.inr ⟨int, List.mem_cons_self _ _, ?_, ?_, ?_⟩
          · rw [hreg]; cases hme; rfl
          · cases hme; simpa using hm
          · cases hme; rfl
      · exact Or.inr ⟨i, List.mem_cons_of_mem _ hi, hp⟩

/-- Every entry of the mention map comes from a register-located interval's
recorded mention. -/

theorem build_mention_map_sound (virtual_intervals : List VirtualInterval)
    (e : MentionEntry) (he : e ∈ build_mention_map virtual_intervals) :
    ∃ int ∈ virtual_intervals, int.location.getReg = some e.rreg ∧
      (e.iix, e.mention) ∈ int.mentions ∧ e.vreg = int.vreg := by
  rcases build_mention_map_aux e virtual_intervals [] he with h | h
  · cases h
  · exact h

theorem foldl_add_length (ints : List VirtualInterval) :
    ∀ init, ints.foldl (fun a int => a + int.mentions.length) init
      = init + (ints.map (fun int => int.mentions.length)).sum := by
  induction ints with
  | nil => intro init; simp
  | cons int rest ih =>
    intro init
    rw [List.foldl_cons, ih, List.map_cons, List.sum_cons]
    omega

/-- A mention-map entry forces a positive capacity, so `set_registers` does
not take its early exit. -/

theorem build_capacity_pos (virtual_intervals : List VirtualInterval)
    (e : MentionEntry) (he : e ∈ build_mention_map virtual_intervals) :
    virtual_intervals.foldl (fun a int => a + int.mentions.length) 0 ≠ 0 := by
  rcases build_mention_map_sound virtual_intervals e he with ⟨int, hint, _, hm, _⟩
  have hlen : 0 < int.mentions.length := List.length_pos.2 (fun habs => by
    rw [habs] at hm; cases hm)
  have hmem : int.mentions.length ∈ virtual_intervals.map (fun i => i.mentions.length) :=
    List.mem_map_of_mem _ hint
  have hle : int.mentions.length ≤
      (virtual_intervals.map (fun i => i.mentions.length)).sum :=
    List.single_le_sum (fun x _ => Nat.zero_le x) _ hmem
  rw [foldl_add_length]
  omega

/-- C2: for every instruction of the rewritten function and every virtual
register with a Mod mention there, the real register substituted on the use
side equals the real register substituted on the def side (both being the
register assigned to the mentioning interval). -/

theorem mod_same_register (f : FuncData) (virtual_intervals : List VirtualInterval)
    (hkeys : ∀ e ∈ build_mention_map virtual_intervals, e.iix < f.num_insns)
    (huniq : (build_mention_map virtual_intervals).Pairwise
      (fun e1 e2 => e1.iix = e2.iix → e1.vreg ≠ e2.vreg))
    (e : MentionEntry) (he : e ∈ build_mention_map virtual_intervals)
    (hmod : e.mention.is_mod = true) :
    ∃ mapper, (e.iix, mapper) ∈ (set_registers f virtual_intervals).2 ∧
      mapper.lookup_use e.vreg = mapper.lookup_def e.vreg ∧
      mapper.lookup_use e.vreg = some e.rreg := by
  have hsym : Symmetric (fun e1 e2 : MentionEntry =>
      e1.iix = e2.iix → e1.vreg ≠ e2.vreg) := by
    intro a b hab hiix hveq
    exact hab hiix.symm hveq.symm
  have hperm : List.Perm (sortByIix (build_mention_map virtual_intervals))
      (build_mention_map virtual_intervals) := sortByIix_perm _
  have hsorted := sortByIix_sorted (build_mention_map virtual_intervals)
  have he' : e ∈ sortByIix (build_mention_map virtual_intervals) :=
    hperm.mem_iff.2 he
  have hcov : ∀ x ∈ sortByIix (build_mention_map virtual_intervals),
      x.iix ∈ List.range f.num_insns := by
    intro x hx
    exact List.mem_range.2 (hkeys x (hperm.subset hx))
  have huniq' : (sortByIix (build_mention_map virtual_intervals)).Pairwise
      (fun e1 e2 => e1.iix = e2.iix → e1.vreg ≠ e2.vreg) := by
    refine (List.Perm.pairwise_iff ?_ hperm).2 huniq
    exact fun h => hsym h
  have hloopmem := set_registers_loop_mapper f.is_included_in_clobbers
    (List.range f.num_insns) (sortByIix (build_mention_map virtual_intervals)) []
    hsorted (List.pairwise_lt_range _) hcov e.iix (List.mem_range.2 (hkeys e he))
  have hgroupmem : e ∈ (sortByIix (build_mention_map virtual_intervals)).filter
      (fun x => x.iix == e.iix) :=
    List.mem_filter.2 ⟨he', by simp⟩
  have hgroupuniq : ∀ e' ∈ (sortByIix (build_mention_map virtual_intervals)).filter
      (fun x => x.iix == e.iix), e' = e ∨ e'.vreg ≠ e.vreg := by
    intro e' he2
    rcases List.mem_filter.1 he2 with ⟨hmem2, hkey⟩
    by_cases heq : e' = e
    · exact Or.inl heq
    · exact Or.inr ((huniq'.forall hsym) hmem2 he' heq (by simpa using hkey))
  have hfold := group_fold_mod f.is_included_in_clobbers e hmod
    ((sortByIix (build_mention_map virtual_intervals)).filter
      (fun x => x.iix == e.iix)) (Mapper.empty, []) hgroupmem hgroupuniq
  refine ⟨_, ?_, ?_, hfold.1⟩
  · have hcap := build_capacity_pos virtual_intervals e he
    unfold set_registers
    rw [if_neg (by simpa using hcap)]
    exact hloopmem
  · rw [hfold.1, hfold.2]

/-- The concrete C2 interval: virtual register 0 assigned to real register 3,
with a single Mod mention at instruction 1. -/

theorem mod_same_register_witness :
    ∃ mapper, (1, mapper) ∈ (set_registers c2_func [c2_interval]).2 ∧
      mapper.lookup_use 0 = mapper.lookup_def 0 ∧
      mapper.lookup_use 0 = some ⟨3, 0⟩ :=
  mod_same_register c2_func [c2_interval] (by decide) (by decide)
    ⟨1, ⟨2⟩, 0, ⟨3, 0⟩⟩ (by decide) (by decide)

theorem set_registers_loop_clob (inc : Nat → Bool) (x : RealReg) :
    ∀ (insns : List Nat) (entries : List MentionEntry) (clob : List RealReg),
      x ∈ (set_registers_loop inc entries insns clob).1 →
      x ∈ clob ∨ ∃ e ∈ entries,
        (e.mention.is_mod = true ∨ e.mention.is_def = true) ∧
          inc e.iix = true ∧ x = e.rreg := by
  intro insns
  induction insns with
  | nil =>
    intro entries clob h
    exact Or.inl h
  | cons j rest ih =>
    intro entries clob h
    simp only [set_registers_loop] at h
    rcases ih _ _ h with h | ⟨e, he, hp⟩
    · rcases (group_fold_clob inc x _ (Mapper.empty, clob)).1 h with h | ⟨e, he, hp⟩
      · exact Or.inl h
      · exact Or.inr ⟨e, (List.takeWhile_sublist _).subset he, hp⟩
    · exact Or.inr ⟨e, (List.dropWhile_sublist _).subset he, hp⟩

theorem set_registers_eq (f : FuncData) (virtual_intervals : List VirtualInterval) :
    set_registers f virtual_intervals =
      if virtual_intervals.foldl (fun a int => a + int.mentions.length) 0 == 0 then
        ([], [])
      else
        set_registers_loop f.is_included_in_clobbers
          (sortByIix (build_mention_map virtual_intervals))
          (List.range f.num_insns) [] := rfl

/-- C6: in every successful `RegAllocResult`, the clobbered-register set is
restricted to allocatable registers -- every member's index is below
`reg_universe.allocable` -- and a register enters the set only through a mod
or def mention, at an instruction for which `is_included_in_clobbers` holds,
of an interval assigned to that register. -/

theorem clobbered_registers_sound (f : FuncData)
    (virtual_intervals : List VirtualInterval) (u : RealRegUniverse)
    (num_spill_slots : Nat) (use_checker : Bool)
    (checker_result : Except Unit Unit)
    (inst_stream : Except String (Nat × Nat × Nat × List Nat))
    (stackmap_request : Option StackmapRequestInfo) (res : RegAllocResult)
    (hok : apply_registers f virtual_intervals u num_spill_slots use_checker
      checker_result inst_stream stackmap_request = .ok res)
    (r : RealReg) (hr : r ∈ res.clobbered_registers) :
    r.index < u.allocable ∧
      ∃ int ∈ virtual_intervals, int.location.getReg = some r ∧
        ∃ m ∈ int.mentions, (m.2.is_mod = true ∨ m.2.is_def = true) ∧
          f.is_included_in_clobbers m.1 = true := by
  unfold apply_registers at hok
  split at hok
  · exact absurd hok (by simp)
  · cases inst_stream with
    | error s => exact absurd hok (by simp)
    | ok quad =>
      obtain ⟨a, b, c, d⟩ := quad
      rw [Except.ok.injEq] at hok
      subst hok
      rcases List.mem_filter.1 hr with ⟨hmem, hlt⟩
      refine ⟨of_decide_eq_true hlt, ?_⟩
      rw [set_registers_eq] at hmem
      split at hmem
      · cases hmem
      · rcases set_registers_loop_clob f.is_included_in_clobbers r _ _ _ hmem with
          h | ⟨e, he, hflags, hinc, hrr⟩
        · cases h
        · rcases build_mention_map_sound virtual_intervals e
            ((sortByIix_perm _).subset he) with ⟨int, hint, hreg, hm, _⟩
          subst hrr
          exact ⟨int, hint, hreg, (e.iix, e.mention), hm, hflags, hinc⟩

/-- The concrete C6 interval: assigned to real register 1, with a Def mention
at instruction 0. -/

theorem clobbered_registers_sound_witness :
    (⟨1, 0⟩ : RealReg).index < c6_universe.allocable ∧
      ∃ int ∈ [c6_interval], int.location.getReg = some ⟨1, 0⟩ ∧
        ∃ m ∈ int.mentions, (m.2.is_mod = true ∨ m.2.is_def = true) ∧
          c6_func.is_included_in_clobbers m.1 = true :=
  clobbered_registers_sound c6_func [c6_interval] c6_universe 0 false (.ok ())
    (.ok (0, 0, 0, [])) Option.none
    { insns := 0, target_map := 0, orig_insn_map := 0,
      clobbered_registers := [⟨1, 0⟩], num_spill_slots := 0,
      block_annotations := Option.none, stackmaps := [],
      new_safepoint_insns := [] }
    rfl ⟨1, 0⟩ (by decide)

/-- The concrete C3 function. -/

theorem run_deterministic
    (a1 a2 : Except AnalysisError LsAnalysisInfo)
    (g1 g2 : List (Option RealReg) → List VirtualInterval →
      Except RegAllocError (List VirtualInterval × Nat))
    (r1 r2 : List VirtualInterval → Nat → Nat × Nat)
    (k1 k2 : Except Unit Unit)
    (s1 s2 : Except String (Nat × Nat × Nat × List Nat))
    (f1 f2 : FuncData) (u1 u2 : RealRegUniverse)
    (q1 q2 : Option StackmapRequestInfo) (b1 b2 : Bool)
    (ha : a1 = a2) (hg : g1 = g2) (hr : r1 = r2) (hk : k1 = k2) (hs : s1 = s2)
    (hf : f1 = f2) (hu : u1 = u2) (hq : q1 = q2) (hb : b1 = b2) :
    run a1 g1 r1 k1 s1 f1 u1 q1 b1 = run a2 g2 r2 k2 s2 f2 u2 q2 b2 := by
  subst ha
  subst hg
  subst hr
  subst hk
  subst hs
  subst hf
  subst hu
  subst hq
  subst hb
  rfl

/-- C3, witness: two identical concrete invocations coincide. -/

theorem run_deterministic_witness :
    run (.error .UnreachableBlocks)
      (fun _ ints => .ok (ints, 0)) (fun _ n => (0, n)) (.ok ()) (.ok (0, 0, 0, []))
      c3_func c6_universe Option.none false
    = run (.error .UnreachableBlocks)
      (fun _ ints => .ok (ints, 0)) (fun _ n => (0, n)) (.ok ()) (.ok (0, 0, 0, []))
      c3_func c6_universe Option.none false :=
  run_deterministic _ _ _ _ _ _ _ _ _ _ _ _ _ _ _ _ _ _
    rfl rfl rfl rfl rfl rfl rfl rfl rfl

theorem run_analysis_eq_of (f : FuncData) (o : AnalysisOracles)
    (algorithm : Algorithm) (cws : Bool)
    (hassert : (cws && decide (algorithm = Algorithm.LinearScan)) = false)
    (hcfg : o.cfg_info = .ok ()) (hsan : o.sanitized = .ok ()) :
    run_analysis f o algorithm cws =
      if !is_subset_of (o.livein_sets.getD f.entry_block [])
          (to_reg_vec f.func_liveins) then
        some (.error (.EntryLiveinValues
          (sparseRemove (o.livein_sets.getD f.entry_block [])
            (to_reg_vec f.func_liveins))))
      else
        run_analysis_rest f o algorithm cws
          (DepthBasedFrequencies.new f.num_blocks o.depth_map) := by
  unfold run_analysis
  rw [hassert, hcfg, hsan]
  rfl

theorem run_analysis_rest_no_error (f : FuncData) (o : AnalysisOracles)
    (algorithm : Algorithm) (cws : Bool) (freq : List Nat) (e : AnalysisError) :
    run_analysis_rest f o algorithm cws freq ≠ some (.error e) := by
  intro h
  cases cws with
  | true => cases algorithm <;> exact Except.noConfusion (Option.some.inj h)
  | false => cases algorithm <;> exact Except.noConfusion (Option.some.inj h)

theorem run_analysis_rest_ne_none (f : FuncData) (o : AnalysisOracles)
    (algorithm : Algorithm) (cws : Bool) (freq : List Nat) :
    run_analysis_rest f o algorithm cws freq ≠ Option.none := by
  intro h
  cases cws with
  | true => cases algorithm <;> exact Option.noConfusion h
  | false => cases algorithm <;> exact Option.noConfusion h

theorem run_analysis_rest_ok (f : FuncData) (o : AnalysisOracles)
    (algorithm : Algorithm) (cws : Bool) (freq : List Nat) (info : AnalysisInfo)
    (h : run_analysis_rest f o algorithm cws freq = some (.ok info)) :
    info.reg_to_ranges_maps
        = (if cws || algorithm == Algorithm.Backtracking then some o.reg_to_ranges
           else Option.none) ∧
      info.move_info
        = (if cws || algorithm == Algorithm.Backtracking then some o.move_information
           else Option.none) := by
  cases cws with
  | true =>
    cases algorithm <;>
    · cases Except.ok.inj (Option.some.inj h)
      exact ⟨rfl, rfl⟩
  | false =>
    cases algorithm <;>
    · cases Except.ok.inj (Option.some.inj h)
      exact ⟨rfl, rfl⟩

/-- C4: when control-flow analysis and use sanitization succeed (the earlier
exits of `run_analysis`) and the stack-map/linear-scan assertion passes,
`run_analysis` returns `Err(EntryLiveinValues(regs))` iff the computed entry
live-in set is not a subset of the declared function live-ins, and in that
case `regs` is exactly the set difference of the two. -/

theorem entry_livein_check_iff (f : FuncData) (o : AnalysisOracles)
    (algorithm : Algorithm) (client_wants_stackmaps : Bool)
    (hassert : (client_wants_stackmaps
      && decide (algorithm = Algorithm.LinearScan)) = false)
    (hcfg : o.cfg_info = .ok ()) (hsan : o.sanitized = .ok ())
    (regs : List Reg) :
    run_analysis f o algorithm client_wants_stackmaps
        = some (.error (.EntryLiveinValues regs)) ↔
      (is_subset_of (o.livein_sets.getD f.entry_block [])
          (to_reg_vec f.func_liveins) = false ∧
        regs = sparseRemove (o.livein_sets.getD f.entry_block [])
          (to_reg_vec f.func_liveins)) := by
  rw [run_analysis_eq_of f o algorithm client_wants_stackmaps hassert hcfg hsan]
  cases hsub : is_subset_of (o.livein_sets.getD f.entry_block [])
      (to_reg_vec f.func_liveins) with
  | true =>
    simp only [Bool.not_true, Bool.false_eq_true, if_false]
    constructor
    · intro h
      exact absurd h (run_analysis_rest_no_error f o algorithm client_wants_stackmaps _ _)
    · rintro ⟨h, _⟩
      cases h
  | false =>
    simp only [Bool.not_false, if_true, Option.some.injEq, Except.error.injEq,
      AnalysisError.EntryLiveinValues.injEq, eq_self_iff_true, true_and]
    exact eq_comm

/-- The entry live-in set for the C4 witness mentions a register that is not
among the (empty) declared live-ins. -/

theorem entry_livein_check_iff_witness :
    (run_analysis c4_func c4_oracles Algorithm.LinearScan false
        = some (.error (.EntryLiveinValues [Reg.virt 5 0])) ↔
      (is_subset_of (c4_oracles.livein_sets.getD c4_func.entry_block [])
          (to_reg_vec c4_func.func_liveins) = false ∧
        [Reg.virt 5 0] = sparseRemove
          (c4_oracles.livein_sets.getD c4_func.entry_block [])
          (to_reg_vec c4_func.func_liveins))) :=
  entry_livein_check_iff c4_func c4_oracles Algorithm.LinearScan false rfl rfl rfl
    [Reg.virt 5 0]

/-- C10: in the `AnalysisInfo` returned by `run_analysis`, the fields
`reg_to_ranges_maps` and `move_info` are `Some` iff the client requested
stack maps or the algorithm is Backtracking; and `run_analysis` can only
panic through its leading `assert!` (stack maps with linear scan), never
through the two `unwrap`s feeding `do_reftypes_analysis`. -/

theorem analysis_maps_some_iff (f : FuncData) (o : AnalysisOracles)
    (algorithm : Algorithm) (cws : Bool) :
    (∀ info, run_analysis f o algorithm cws = some (.ok info) →
      (info.reg_to_ranges_maps.isSome
          = (cws || algorithm == Algorithm.Backtracking) ∧
       info.move_info.isSome = (cws || algorithm == Algorithm.Backtracking))) ∧
    (run_analysis f o algorithm cws = Option.none →
      cws = true ∧ algorithm = Algorithm.LinearScan) := by
  constructor
  · intro info h
    by_cases ha : (cws && decide (algorithm = Algorithm.LinearScan)) = true
    · unfold run_analysis at h
      rw [if_pos ha] at h
      cases h
    · have ha' : (cws && decide (algorithm = Algorithm.LinearScan)) = false := by
        simpa using ha
      cases hc : o.cfg_info with
      | error e =>
        unfold run_analysis at h
        rw [if_neg (by simp [ha']), hc] at h
        simp at h
      | ok u =>
        cases hs : o.sanitized with
        | error rr =>
          unfold run_analysis at h
          rw [if_neg (by simp [ha']), hc, hs] at h
          simp at h
        | ok v =>
          cases u
          cases v
          rw [run_analysis_eq_of f o algorithm cws ha' hc hs] at h
          cases hsub : is_subset_of (o.livein_sets.getD f.entry_block [])
              (to_reg_vec f.func_liveins) with
          | false =>
            rw [hsub] at h
            simp at h
          | true =>
            rw [hsub] at h
            simp only [Bool.not_true, Bool.false_eq_true, if_false] at h
            rcases run_analysis_rest_ok f o algorithm cws _ info h with ⟨h1, h2⟩
            rw [h1, h2]
            cases hcond : (cws || algorithm == Algorithm.Backtracking) <;> simp [hcond]
  · intro h
    by_cases ha : (cws && decide (algorithm = Algorithm.LinearScan)) = true
    · rw [Bool.and_eq_true] at ha
      exact ⟨ha.1, of_decide_eq_true ha.2⟩
    · exfalso
      have ha' : (cws && decide (algorithm = Algorithm.LinearScan)) = false := by
        simpa using ha
      cases hc : o.cfg_info with
      | error e =>
        unfold run_analysis at h
        rw [if_neg (by simp [ha']), hc] at h
        simp at h
      | ok u =>
        cases hs : o.sanitized with
        | error rr =>
          unfold run_analysis at h
          rw [if_neg (by simp [ha']), hc, hs] at h
          simp at h
        | ok v =>
          cases u
          cases v
          rw [run_analysis_eq_of f o algorithm cws ha' hc hs] at h
          cases hsub : is_subset_of (o.livein_sets.getD f.entry_block [])
              (to_reg_vec f.func_liveins) with
          | false =>
            rw [hsub] at h
            simp at h
          | true =>
            rw [hsub] at h
            simp only [Bool.not_true, Bool.false_eq_true, if_false] at h
            exact run_analysis_rest_ne_none f o algorithm cws _ h

/-- Oracles for the C10 witness: entry live-in check passes. -/

theorem analysis_maps_some_iff_witness :
    c10_info.reg_to_ranges_maps.isSome
        = (true || Algorithm.Backtracking == Algorithm.Backtracking) ∧
      c10_info.move_info.isSome
        = (true || Algorithm.Backtracking == Algorithm.Backtracking) :=
  (analysis_maps_some_iff c4_func c10_oracles Algorithm.Backtracking true).1
    c10_info rfl

theorem lsra_fold_error (f : FuncData) (succs preds : Nat → List Nat)
    (tm : Nat → Bool) (e : AnalysisError) :
    ∀ blocks : List Nat,
      blocks.foldl (lsra_check_step f succs preds tm) (.error e) = .error e := by
  intro blocks
  induction blocks with
  | nil => rfl
  | cons b rest ih => rw [List.foldl_cons]; exact ih

theorem lsra_fold_ok (f : FuncData) (succs preds : Nat → List Nat)
    (tm : Nat → Bool) :
    ∀ blocks : List Nat,
      (∀ b ∈ blocks, (tm ((f.block_insns b).getLastD 0) &&
        (succs b).any (fun s => decide (2 ≤ (preds s).length))) = false) →
      blocks.foldl (lsra_check_step f succs preds tm) (.ok ()) = .ok () := by
  intro blocks
  induction blocks with
  | nil => intro _; rfl
  | cons b rest ih =>
    intro hb
    rw [List.foldl_cons]
    have hstep : lsra_check_step f succs preds tm (.ok ()) b = .ok () := by
      unfold lsra_check_step
      rw [if_neg (by rw [hb b (List.mem_cons_self _ _)]; simp)]
    rw [hstep]
    exact ih (fun x hx => hb x (List.mem_cons_of_mem _ hx))

theorem lsra_fold_error_of_mem (f : FuncData) (succs preds : Nat → List Nat)
    (tm : Nat → Bool) :
    ∀ (blocks : List Nat) (b : Nat), b ∈ blocks →
      (tm ((f.block_insns b).getLastD 0) &&
        (succs b).any (fun s => decide (2 ≤ (preds s).length))) = true →
      ∃ e, blocks.foldl (lsra_check_step f succs preds tm) (.ok ()) = .error e := by
  intro blocks
  induction blocks with
  | nil =>
    intro b h
    cases h
  | cons a rest ih =>
    intro b hmem hcond
    rw [List.foldl_cons]
    cases hstep : lsra_check_step f succs preds tm (.ok ()) a with
    | error e =>
      rw [lsra_fold_error]
      exact ⟨e, rfl⟩
    | ok u =>
      rcases List.mem_cons.1 hmem with rfl | hmem'
      · exfalso
        unfold lsra_check_step at hstep
        rw [if_pos hcond] at hstep
        cases hstep
      · cases u
        exact ih b hmem' hcond

theorem lsra_fold_error_shape (f : FuncData) (succs preds : Nat → List Nat)
    (tm : Nat → Bool) :
    ∀ (blocks : List Nat) (acc : Except AnalysisError Unit),
      (∀ e, acc = .error e → ∃ b i, e = .LsraCriticalEdge b i) →
      ∀ e, blocks.foldl (lsra_check_step f succs preds tm) acc = .error e →
        ∃ b i, e = .LsraCriticalEdge b i := by
  intro blocks
  induction blocks with
  | nil =>
    intro acc hacc e he
    exact hacc e he
  | cons a rest ih =>
    intro acc hacc e he
    rw [List.foldl_cons] at he
    refine ih _ ?_ e he
    intro e' he'
    cases acc with
    | error e0 =>
      rcases hacc e0 rfl with ⟨b, i, rfl⟩
      unfold lsra_check_step at he'
      rw [Except.error.injEq] at he'
      exact ⟨b, i, he'.symm⟩
    | ok u =>
      simp only [lsra_check_step] at he'
      by_cases hcond : (tm ((f.block_insns a).getLastD 0) &&
          (succs a).any (fun s => decide (2 ≤ (preds s).length))) = true
      · rw [if_pos hcond, Except.error.injEq] at he'
        exact ⟨a, _, he'.symm⟩
      · rw [if_neg hcond] at he'
        cases he'

/-- C8: under the linear-scan edge discipline, a critical edge from `from` to
`to` is tolerated when no terminator mentions a register; when the terminator
of `from` does mention a register, analysis fails, and every failure of this
check is an `LsraCriticalEdge { block, inst }` -- never the generic
`CriticalEdge`. -/

theorem lsra_critical_edge_check (f : FuncData) (succs preds : Nat → List Nat)
    (tm : Nat → Bool) (fromBlock toBlock : Nat)
    (hfrom : fromBlock < f.num_blocks)
    (hsucc : toBlock ∈ succs fromBlock)
    (hpreds : 2 ≤ (preds toBlock).length) :
    ((∀ b, b < f.num_blocks → tm ((f.block_insns b).getLastD 0) = false) →
        lsra_check_edges f succs preds tm = .ok ()) ∧
    (tm ((f.block_insns fromBlock).getLastD 0) = true →
        (∃ e, lsra_check_edges f succs preds tm = .error e) ∧
        (∀ e, lsra_check_edges f succs preds tm = .error e →
          ∃ b i, e = .LsraCriticalEdge b i)) := by
  constructor
  · intro hall
    unfold lsra_check_edges
    refine lsra_fold_ok f succs preds tm _ ?_
    intro b hb
    rw [hall b (List.mem_range.1 hb)]
    rfl
  · intro hmention
    constructor
    · unfold lsra_check_edges
      refine lsra_fold_error_of_mem f succs preds tm _ fromBlock
        (List.mem_range.2 hfrom) ?_
      rw [hmention, Bool.true_and, List.any_eq_true]
      exact ⟨toBlock, hsucc, decide_eq_true hpreds⟩
    · intro e he
      unfold lsra_check_edges at he
      exact lsra_fold_error_shape f succs preds tm _ _ (fun e' h => by cases h) e he

/-- The concrete C8 function: two blocks; block 0's terminator (instruction 1)
branches twice to block 1, which also has a fall-through predecessor, making
the edge critical. -/

theorem lsra_critical_edge_check_witness :
    ((∀ b, b < c8_func.num_blocks →
        decide ((c8_func.block_insns b).getLastD 0 = 1) = false) →
      lsra_check_edges c8_func (fun b => if b = 0 then [1, 1] else [])
        (fun b => if b = 1 then [0, 0] else [])
        (fun i => decide (i = 1)) = .ok ()) ∧
    (decide ((c8_func.block_insns 0).getLastD 0 = 1) = true →
      (∃ e, lsra_check_edges c8_func (fun b => if b = 0 then [1, 1] else [])
        (fun b => if b = 1 then [0, 0] else [])
        (fun i => decide (i = 1)) = .error e) ∧
      (∀ e, lsra_check_edges c8_func (fun b => if b = 0 then [1, 1] else [])
        (fun b => if b = 1 then [0, 0] else [])
        (fun i => decide (i = 1)) = .error e →
        ∃ b i, e = .LsraCriticalEdge b i)) :=
  lsra_critical_edge_check c8_func (fun b => if b = 0 then [1, 1] else [])
    (fun b => if b = 1 then [0, 0] else []) (fun i => decide (i = 1)) 0 1
    (by decide) (by decide) (by decide)

end RA
